import Mathlib

/-!
Verification development for the pydiag block-ensemble core
(`src/pydiag/ensemble/`).  The Python classes `Ensemble`, `Scalar`,
`Array`, `EnsembleScalar`, `EnsembleArray`, `EnsembleTriDiag` and the free
functions of `algebra.py` are shallowly embedded as executable Lean
definitions; fallible Python code is modelled with `Except`, Python
exceptions with the `PyErr` type below, and `OrderedDict` with association
lists carrying Python dict insertion semantics (`odInsert`).
Dense numerical primitives (`scipy.linalg.eigvalsh_tridiagonal`,
`numpy.dot`) are external trusted libraries and enter as function
parameters; everything else is translated from the source.
-/

namespace Pydiag

/-- The Python exceptions the embedded code can raise.  `unmodeled` marks a
single numpy object-array fallback branch that no claim reaches (see
`npMulArrayObject`). -/
inductive PyErr where
  | typeError (msg : String)
  | valueError (msg : String)
  | indexError (msg : String)
  | keyError (msg : String)
  | nameError (msg : String)
  | unmodeled (msg : String)
  deriving DecidableEq, Repr

/-- Decidable equality of `Except` results, so that concrete runs of the
embedded code can be checked by `decide`. -/
instance instDecEqExcept {ε α : Type} [DecidableEq ε] [DecidableEq α] :
    DecidableEq (Except ε α) := fun x y =>
  match x, y with
  | .error e, .error f =>
      match decEq e f with
      | isTrue h => isTrue (h ▸ rfl)
      | isFalse h => isFalse (fun hh => h (Except.error.inj hh))
  | .ok a, .ok b =>
      match decEq a b with
      | isTrue h => isTrue (h ▸ rfl)
      | isFalse h => isFalse (fun hh => h (Except.ok.inj hh))
  | .error _, .ok _ => isFalse (fun hh => Except.noConfusion hh)
  | .ok _, .error _ => isFalse (fun hh => Except.noConfusion hh)

/-- A block key: Python tuple of strings (`ensemble.py` builds
`block = tuple(block)` from per-axis string labels). -/
abbrev BlockKey := List String

/-- One element of an axis argument to `Ensemble.__init__`: either a
`(block, degeneracy)` tuple or a bare label (which receives
`default_degeneracy`).  Labels are already the `str(...)`-coerced strings
and degeneracies the `int(...)`-coerced integers of the source. -/
inductive AxisObj where
  | pair (label : String) (deg : Int)
  | bare (label : String)
  deriving DecidableEq, Repr

/-- `ensemble.py` lines 40-55: bring one axis element into the
`tuple(str, int)` form. -/
def formatEntry (defaultDeg : Int) : AxisObj → String × Int
  | .pair l d => (l, d)
  | .bare l => (l, defaultDeg)

/-- Formatting a whole axis argument (`arg_formatted`). -/
def formatAxis (defaultDeg : Int) (ax : List AxisObj) : List (String × Int) :=
  ax.map (formatEntry defaultDeg)

/-- `itertools.product(*args_formatted)`: Cartesian product of the
formatted axes, the first axis varying slowest (itertools order). -/
def listProd {α : Type} : List (List α) → List (List α)
  | [] => [[]]
  | ax :: rest => ax.flatMap (fun p => (listProd rest).map (fun c => p :: c))

/-- `block = tuple(block)` for one product combination. -/
def blockOf (c : List (String × Int)) : BlockKey := c.map Prod.fst

/-- `deg = 1; for b, d in blocks_degeneracies: deg *= d`. -/
def degOf (c : List (String × Int)) : Int :=
  c.foldl (fun acc p => acc * p.snd) 1

/-- Python `dict.__setitem__` on an association list: an existing key has
its value replaced in place, a new key is appended at the end. -/
def odInsert {K V : Type} [DecidableEq K] :
    List (K × V) → K → V → List (K × V)
  | [], k, v => [(k, v)]
  | p :: rest, k, v =>
      if p.1 = k then (k, v) :: rest else p :: odInsert rest k v

/-- Python `<` on two strings: lexicographic comparison of the code
points. -/
def strLtChars : List Char → List Char → Bool
  | [], [] => false
  | [], _ :: _ => true
  | _ :: _, [] => false
  | a :: as, b :: bs =>
      if a.toNat < b.toNat then true
      else if a.toNat = b.toNat then strLtChars as bs
      else false

/-- `a < b` on Python strings. -/
def strLt (a b : String) : Bool :=
  strLtChars a.data b.data

/-- Lexicographic comparison of block keys, as Python compares tuples of
strings (`sorted(self.blocks)`). -/
def keyLe : BlockKey → BlockKey → Bool
  | [], _ => true
  | _ :: _, [] => false
  | a :: as, b :: bs => if strLt a b then true else if a = b then keyLe as bs else false

/-- Stable insertion of a key into an already sorted list: after every
element that compares at or below it. -/
def sortedInsert (x : BlockKey) : List BlockKey → List BlockKey
  | [] => [x]
  | y :: ys => if keyLe y x then y :: sortedInsert x ys else x :: y :: ys

/-- Python `sorted` on block keys: a stable sort by `keyLe` (the
algorithm differs from CPython timsort, the result agrees). -/
def sortKeys (l : List BlockKey) : List BlockKey :=
  l.foldl (fun acc x => sortedInsert x acc) []

/-- The `Ensemble` class of `ensemble.py`.  `oid` models CPython object
identity (`id()`): `Ensemble` defines neither `__eq__` nor `__ne__`, so
`==`/`!=` on ensembles fall back to identity comparison.  Every call of
the constructor creates a fresh object, hence a fresh `oid`. -/
structure PyEnsemble where
  blocks : List BlockKey
  degeneracy : List (BlockKey × Int)
  oid : Nat
  deriving DecidableEq, Repr

/-- `Ensemble.__init__` (lines 25-69): format the axes, take their
Cartesian product, record each block and its degeneracy product in the
`degeneracy` dict, and sort the `blocks` list. -/
def ensembleInit (axes : List (List AxisObj)) (defaultDeg : Int)
    (oid : Nat) : PyEnsemble :=
  let combos := listProd (axes.map (formatAxis defaultDeg))
  { blocks := sortKeys (combos.map blockOf)
    degeneracy := combos.foldl (fun m c => odInsert m (blockOf c) (degOf c)) []
    oid := oid }

/-- `Ensemble.__iter__` returns `self.degeneracy.items()`: the pairs in
dict insertion order, not the sorted `blocks` list. -/
def ensembleIter (e : PyEnsemble) : List (BlockKey × Int) :=
  e.degeneracy

/-- Python `==` on two `Ensemble` objects: no `__eq__` is defined anywhere
in the package, so `object.__eq__` compares identity. -/
def pyEnsembleEq (a b : PyEnsemble) : Bool :=
  a.oid == b.oid

/-- The Python `for`-loop over a list where the body may raise: stops at
the first exception, otherwise collects the results in order. -/
def pyLoop {α β : Type} (f : α → Except PyErr β) :
    List α → Except PyErr (List β)
  | [] => .ok []
  | x :: xs => do
      let y ← f x
      let ys ← pyLoop f xs
      .ok (y :: ys)

/-- `d[k]` on an association-list dict: `KeyError` when absent. -/
def dictGet {V : Type} (m : List (BlockKey × V)) (k : BlockKey) :
    Except PyErr V :=
  match m.lookup k with
  | some v => .ok v
  | none => .error (.keyError "block not found")

/-- Rebuilding a dict by successive `d[k] = v` assignments. -/
def odFromPairs {V : Type} (pairs : List (BlockKey × V)) :
    List (BlockKey × V) :=
  pairs.foldl (fun m p => odInsert m p.1 p.2) []

/-- A numpy ndarray: a shape and the row-major flattened data.
Well-formed arrays satisfy `data.length = shape.prod`; the constructors
below maintain this.  Entries are modeled as integers: a discrete,
kernel-computable stand-in for Python floats — every operation a claim
exercises (copying, indexing, addition, multiplication, length
bookkeeping) is parametric in the scalar type, and the floating-point
primitives themselves are external parameters. -/
structure NpArray where
  shape : List Nat
  data : List Int
  deriving DecidableEq, Repr

/-- `len(arr)`: the first-axis extent; a 0-d array has no length. -/
def npLen (a : NpArray) : Except PyErr Nat :=
  match a.shape with
  | [] => .error (.typeError "len of unsized object")
  | n :: _ => .ok n

/-- `np.empty(n)` for an integer argument `n`: a fresh 1-D array of length
`n`.  Its entries are uninitialized in numpy; the embedding fills zeros,
and the code below only ever reaches this with `n = 0`. -/
def npEmptyInt (n : Nat) : NpArray :=
  { shape := [n], data := List.replicate n 0 }

/-- The index objects the embedded code passes to `__getitem__`: an
integer, a `lo:hi` slice, or a block key (a tuple of strings, as happens
when `other[block]` hits `Array.__getitem__`). -/
inductive PyIndex where
  | int (i : Int)
  | slice (lo hi : Int)
  | key (b : BlockKey)
  deriving DecidableEq, Repr

/-- Python slice-bound normalization for step 1 on an axis of extent
`n`: negative bounds count from the end, then both are clamped to
`[0, n]`. -/
def sliceNorm (n : Nat) (v : Int) : Nat :=
  if v < 0 then (v + n).toNat else min v.toNat n

/-- numpy `arr[k]` on the first axis.  Indexing with a tuple of strings is
rejected by numpy with an `IndexError`. -/
def npIndex (a : NpArray) (k : PyIndex) : Except PyErr NpArray :=
  match k, a.shape with
  | _, [] => .error (.indexError "too many indices for array")
  | .int i, n :: tail =>
      let i' : Int := if i < 0 then i + n else i
      if 0 ≤ i' ∧ i' < n then
        let rs := tail.prod
        .ok { shape := tail, data := (a.data.drop (i'.toNat * rs)).take rs }
      else .error (.indexError "index out of bounds")
  | .slice lo hi, n :: tail =>
      let lo' := sliceNorm n lo
      let hi' := sliceNorm n hi
      let cnt := hi' - lo'
      let rs := tail.prod
      .ok { shape := cnt :: tail
            data := (a.data.drop (lo' * rs)).take (cnt * rs) }
  | .key _, _ :: _ =>
      .error (.indexError "only integers and slices are valid indices")

/-- Elementwise `arr * c` for a numeric scalar `c`. -/
def npMulScalar (a : NpArray) (c : Int) : NpArray :=
  { shape := a.shape, data := a.data.map (· * c) }

/-- The `Scalar` class of `scalar.py` and the `EnsembleScalar` class of
`ensemble_scalar.py`: both own an ensemble reference and an `OrderedDict`
of per-block scalar values, where a value may be Python `None`. -/
structure PyScalar where
  ensemble : PyEnsemble
  scalar : List (BlockKey × Option Int)
  deriving DecidableEq, Repr

/-- The `Array` class of `array.py` and the `EnsembleArray` class of
`ensemble_array.py`: both own an ensemble reference, an `OrderedDict` of
per-block arrays, and the common dimensionality `ndim`. -/
structure PyArray where
  ensemble : PyEnsemble
  array : List (BlockKey × NpArray)
  ndim : Nat
  deriving DecidableEq, Repr

/-- The shared tail of `Array.__init__` / `EnsembleArray.__init__` once
the per-block arrays have been fetched in ensemble order: store them by
dict assignment, then require one common number of dimensions
(`np.unique` of the ndims must be a single value; `List.dedup` is a
singleton exactly when `np.unique` is). -/
def arrayBuild (e : PyEnsemble) (pairs : List (BlockKey × NpArray)) :
    Except PyErr PyArray :=
  let arrDict := odFromPairs pairs
  match (arrDict.map (fun p => p.2.shape.length)).dedup with
  | [n] => .ok { ensemble := e, array := arrDict, ndim := n }
  | _ => .error (.valueError "not all arrays have same number of dimensions")

/-- `Array.__init__` (equally `EnsembleArray.__init__`) with `tag=None`:
`self.array[block] = np.array(data[block])` for each ensemble block (the
data values are already arrays, so `np.array` reproduces them), then the
ndim check. -/
def arrayFromData (e : PyEnsemble) (data : List (BlockKey × NpArray)) :
    Except PyErr PyArray := do
  let pairs ← pyLoop (fun bd => do
      let ar ← dictGet data bd.1
      .ok (bd.1, ar)) e.degeneracy
  arrayBuild e pairs

/-- `EnsembleArray.__init__` with a tag:
`self.array[block] = np.array(data[block][tag])`. -/
def arrayFromDataTag (e : PyEnsemble)
    (data : List (BlockKey × List (String × NpArray))) (tag : String) :
    Except PyErr PyArray := do
  let pairs ← pyLoop (fun bd => do
      let entry ← dictGet data bd.1
      match entry.lookup tag with
      | some ar => .ok (bd.1, ar)
      | none => .error (.keyError "tag not found")) e.degeneracy
  arrayBuild e pairs

/-- `Array.__getitem__` (`array.py` lines 110-117): apply the same index
to every block whose array has positive length; an empty block receives
`np.empty(self.ndim * (0))` — note that `self.ndim * (0)` is the integer
zero, not a shape tuple — and the resulting dict goes through the `Array`
constructor again. -/
def arrayGetitem (a : PyArray) (k : PyIndex) : Except PyErr PyArray := do
  let pairs ← pyLoop (fun p => do
      let n ← npLen p.2
      if 0 < n then do
        let r ← npIndex p.2 k
        .ok (p.1, r)
      else
        .ok (p.1, npEmptyInt (a.ndim * 0))) a.array
  arrayFromData a.ensemble pairs

/-- The non-scalar operands `__mul__` can meet: a plain number passes
`np.isscalar`; a `Scalar`/`EnsembleScalar` or `Array`/`EnsembleArray`
container does not. -/
inductive ArrOperand where
  | scalar (c : Int)
  | scalarContainer (s : PyScalar)
  | arrayContainer (o : PyArray)

/-- `ndarray * <ensemble.Array object>`: the numpy object-array fallback
that would only be reached when `other[block]` succeeds, i.e. when every
block of the operand is empty.  No claim exercises this branch; it is
deliberately left unmodeled. -/
def npMulArrayObject (_ar : NpArray) (_x : PyArray) : Except PyErr NpArray :=
  .error (.unmodeled "ndarray times ensemble.Array object")

/-- `Array.__mul__` (`array.py` lines 87-95).  `np.isscalar(other)` picks
the broadcast branch; otherwise `data[block] = arr * other[block]`, where
`other[block]` dispatches on the operand: `Scalar.__getitem__` is a plain
dict lookup, while `Array.__getitem__` applies the block key as a numpy
index to every block of the operand. -/
def arrayMul (a : PyArray) (other : ArrOperand) : Except PyErr PyArray := do
  let pairs ← match other with
    | .scalar c =>
        pyLoop (fun p => .ok (p.1, npMulScalar p.2 c)) a.array
    | .scalarContainer s =>
        pyLoop (fun p => do
          let v ← dictGet s.scalar p.1
          match v with
          | some q => .ok (p.1, npMulScalar p.2 q)
          | none => .error (.typeError "unsupported operand type for times: NoneType")) a.array
    | .arrayContainer o =>
        pyLoop (fun p => do
          let ob ← arrayGetitem o (.key p.1)
          let r ← npMulArrayObject p.2 ob
          .ok (p.1, r)) a.array
  arrayFromData a.ensemble pairs

/-- `EnsembleArray.__mul__` (`ensemble_array.py` lines 88-95): scalars
broadcast, every other operand raises. -/
def ensArrayMul (a : PyArray) (other : ArrOperand) : Except PyErr PyArray :=
  match other with
  | .scalar c => do
      let pairs ← pyLoop (fun p => .ok (p.1, npMulScalar p.2 c)) a.array
      arrayFromData a.ensemble pairs
  | _ => .error (.typeError "only multiplications with scalars are allowed")

/-- `Scalar.__neg__` (`scalar.py` lines 89-93): negate every block value
(`-None` raises a `TypeError`), then evaluate `Array(self.ensemble,
data)`.  The module `scalar.py` only defines the names `Ensemble`, `np`,
`OrderedDict` and `Scalar`, so the lookup of `Array` raises `NameError`
and the method can never return. -/
def scalarNeg (s : PyScalar) : Except PyErr PyScalar := do
  let _data ← pyLoop (fun p =>
      match p.2 with
      | some q => .ok (p.1, some (-q))
      | none => .error (.typeError "bad operand type for unary minus: NoneType")) s.scalar
  .error (.nameError "name Array is not defined")

/-- `algebra.dot` (`algebra.py` lines 61-79) for two `Array` operands (the
`isinstance` guards hold by typing).  The ensemble comparison `a.ensemble
!= b.ensemble` runs before the per-block loop; the loop then applies the
trusted primitive `np.dot`, passed here as the parameter `npDot`, and the
result dict goes through the `Array` constructor. -/
def dotPy (npDot : NpArray → NpArray → NpArray) (a b : PyArray) :
    Except PyErr PyArray := do
  if pyEnsembleEq a.ensemble b.ensemble then do
    let pairs ← pyLoop (fun bd => do
        let x ← dictGet a.array bd.1
        let y ← dictGet b.array bd.1
        .ok (bd.1, npDot x y)) a.ensemble.degeneracy
    arrayFromData a.ensemble pairs
  else .error (.valueError "a and b do not share the same ensemble")

/-- `EnsembleScalar.__init__` with `tag=None`, `dtype=None`
(`ensemble_scalar.py` lines 33-40): `self.scalar[block] = data[block]`
for each ensemble block. -/
def ensScalarInit (e : PyEnsemble) (data : List (BlockKey × Option Int)) :
    Except PyErr PyScalar := do
  let pairs ← pyLoop (fun bd => do
      let v ← dictGet data bd.1
      .ok (bd.1, v)) e.degeneracy
  .ok { ensemble := e, scalar := odFromPairs pairs }

/-- The `EnsembleTriDiag` class: an ensemble reference plus the `diag`
and `offdiag` dicts of flattened per-block vectors. -/
structure PyTriDiag where
  ensemble : PyEnsemble
  diag : List (BlockKey × List Int)
  offdiag : List (BlockKey × List Int)
  deriving DecidableEq, Repr

/-- The per-block branch of `EnsembleTriDiag.__init__` (lines 48-56):
equal lengths trim the trailing off-diagonal entry, `len(d) ==
len(od) + 1` is kept as is, anything else raises. -/
def tridiagNormalize (d od : List Int) :
    Except PyErr (List Int × List Int) :=
  if d.length = od.length then .ok (d, od.dropLast)
  else if d.length = od.length + 1 then .ok (d, od)
  else .error (.valueError "Incompatible diag offdiag dimensions in block")

/-- `EnsembleTriDiag.__init__` (lines 20-56): build the two intermediate
`EnsembleArray`s from the tagged data, then per ensemble block flatten
(`.flatten()` of a row-major array is its data list) and normalize.  The
two dict assignments per iteration are reassembled with `odFromPairs`. -/
def tridiagInit (e : PyEnsemble)
    (data : List (BlockKey × List (String × NpArray)))
    (diagTag offdiagTag : String) : Except PyErr PyTriDiag := do
  let ensDiag ← arrayFromDataTag e data diagTag
  let ensOffdiag ← arrayFromDataTag e data offdiagTag
  let pairs ← pyLoop (fun bd => do
      let dArr ← dictGet ensDiag.array bd.1
      let odArr ← dictGet ensOffdiag.array bd.1
      let dod ← tridiagNormalize dArr.data odArr.data
      .ok (bd.1, dod)) e.degeneracy
  .ok { ensemble := e
        diag := odFromPairs (pairs.map (fun p => (p.1, p.2.1)))
        offdiag := odFromPairs (pairs.map (fun p => (p.1, p.2.2))) }

/-- `EnsembleTriDiag.eig0` (lines 88-104): per ensemble block, `None` for
length 0, the sole diagonal entry for length 1, otherwise the trusted
selective-range routine `scipy.linalg.eigvalsh_tridiagonal(d, od, 'i',
select_range=(0,0))[0]`, passed here as the parameter `eigLowest`; the
result dict becomes an `EnsembleScalar` over the same ensemble. -/
def eig0 (eigLowest : List Int → List Int → Int) (t : PyTriDiag) :
    Except PyErr PyScalar := do
  let pairs ← pyLoop (fun bd => do
      let d ← dictGet t.diag bd.1
      match d with
      | [] => .ok (bd.1, (none : Option Int))
      | [x] => .ok (bd.1, some x)
      | _ => do
          let od ← dictGet t.offdiag bd.1
          .ok (bd.1, some (eigLowest d od))) t.ensemble.degeneracy
  ensScalarInit t.ensemble pairs

/-- A 2-D numpy array as numpy builds it inside
`EnsembleTriDiag.asarray`: an explicit shape and a list of rows. -/
structure NpMat where
  rows : Nat
  cols : Nat
  data : List (List Int)
  deriving DecidableEq, Repr

/-- `np.diag(v, k)` for a 1-D `v` of length `n`: a square matrix of size
`n + |k|` carrying `v` on the `k`-th diagonal. -/
def npDiagMat (v : List Int) (k : Int) : NpMat :=
  let n := v.length + k.natAbs
  { rows := n, cols := n
    data := (List.range n).map (fun (i : Nat) => (List.range n).map (fun (j : Nat) =>
      if (j : Int) - (i : Int) = k then v.getD (min i j) 0 else 0)) }

/-- numpy broadcasting of one dimension pair: equal extents agree, an
extent of 1 stretches to the other. -/
def brDim (a b : Nat) : Option Nat :=
  if a = b then some a else if a = 1 then some b
  else if b = 1 then some a else none

/-- Entry lookup of a matrix inside a broadcast operation: a size-1 axis
repeats its only index. -/
def brEntry (m : NpMat) (i j : Nat) : Int :=
  (m.data.getD (if m.rows = 1 then 0 else i) []).getD
    (if m.cols = 1 then 0 else j) 0

/-- numpy `+` on two 2-D arrays, with broadcasting. -/
def npMatAdd (x y : NpMat) : Except PyErr NpMat :=
  match brDim x.rows y.rows, brDim x.cols y.cols with
  | some r, some c =>
      .ok { rows := r, cols := c
            data := (List.range r).map (fun i => (List.range c).map (fun j =>
              brEntry x i j + brEntry y i j)) }
  | _, _ => .error (.valueError "operands could not be broadcast together")

/-- Flattening the 2-D matrix back into the `NpArray` representation. -/
def matToArray (m : NpMat) : NpArray :=
  { shape := [m.rows, m.cols], data := m.data.flatten }

/-- `EnsembleTriDiag.asarray` (lines 148-163): per ensemble block,
`np.diag(d) + np.diag(od, 1) + np.diag(od, -1)`.  The local `l =
len(self.diag[block])` is never used, and the guard `if self.diag[block]
is None` can never hold because `diag` stores arrays, so only the `else`
branch is live; for a zero-length block the `else` branch adds a `(0, 0)`
and two `(1, 1)` matrices, which numpy broadcasting collapses to `(0, 0)`.
The result dict becomes an `EnsembleArray` over the same ensemble. -/
def asarray (t : PyTriDiag) : Except PyErr PyArray := do
  let pairs ← pyLoop (fun bd => do
      let d ← dictGet t.diag bd.1
      let od ← dictGet t.offdiag bd.1
      let m1 ← npMatAdd (npDiagMat d 0) (npDiagMat od 1)
      let m2 ← npMatAdd m1 (npDiagMat od (-1))
      .ok (bd.1, matToArray m2)) t.ensemble.degeneracy
  arrayFromData t.ensemble pairs

/-! ### Concrete fixtures used by counterexamples and witnesses -/

/-- The axis specification of the concrete scenario in the spec:
`[("a",1),("b",2)]` times `[("x",1),("y",1)]`. -/
def specAxes : List (List AxisObj) :=
  [[.pair "a" 1, .pair "b" 2], [.pair "x" 1, .pair "y" 1]]

/-- A one-block ensemble, first constructor call. -/
def exA : PyEnsemble := ensembleInit [[.bare "a"]] 1 0

/-- A second `Ensemble(["a"])` constructor call: identical axis
specification, fresh object. -/
def exB : PyEnsemble := ensembleInit [[.bare "a"]] 1 1

/-- A two-block ensemble. -/
def exAB : PyEnsemble := ensembleInit [[.bare "a", .bare "b"]] 1 0

/-- A one-block `Array` over `exA` holding `[1, 2]`. -/
def aW : PyArray := { ensemble := exA, array := [(["a"], ⟨[2], [1, 2]⟩)], ndim := 1 }

/-- A one-block `Array` over `exB` (same block data layout as `aW`). -/
def bW : PyArray := { ensemble := exB, array := [(["a"], ⟨[2], [3, 4]⟩)], ndim := 1 }

/-- A one-block `Scalar` with a numeric (non-`None`) entry. -/
def sW : PyScalar := { ensemble := exA, scalar := [(["a"], some 3)] }

/-- A three-block ensemble. -/
def exABC : PyEnsemble := ensembleInit [[.bare "a", .bare "b", .bare "c"]] 1 0

/-- Tagged tridiagonal data over `exABC` holding blocks of length 0, 1
and 3 (the length-1 block supplies an equal-length off-diagonal that the
constructor trims). -/
def dataW3 : List (BlockKey × List (String × NpArray)) :=
  [(["a"], [("diag", ⟨[0], []⟩), ("offdiag", ⟨[0], []⟩)]),
   (["b"], [("diag", ⟨[1], [4]⟩), ("offdiag", ⟨[1], [9]⟩)]),
   (["c"], [("diag", ⟨[3], [1, 2, 3]⟩), ("offdiag", ⟨[2], [5, 7]⟩)])]

/-- The container `EnsembleTriDiag(exABC, dataW3)` builds. -/
def tW3 : PyTriDiag :=
  { ensemble := exABC
    diag := [(["a"], []), (["b"], [4]), (["c"], [1, 2, 3])]
    offdiag := [(["a"], []), (["b"], []), (["c"], [5, 7])] }

/-- A one-block 2-D `Array` whose sole block is empty (shape `(0, 2)`). -/
def aEmpty2 : PyArray :=
  { ensemble := exA, array := [(["a"], ⟨[0, 2], []⟩)], ndim := 2 }

/-- A two-block 2-D `Array` with one empty block (shape `(0, 2)`) and one
nonempty block (shape `(3, 2)`). -/
def aMix : PyArray :=
  { ensemble := exAB
    array := [(["a"], ⟨[0, 2], []⟩), (["b"], ⟨[3, 2], [1, 2, 3, 4, 5, 6]⟩)]
    ndim := 2 }

/-- A second one-block `Array` over the same ensemble object `exA` as
`aW`. -/
def aW2 : PyArray :=
  { ensemble := exA, array := [(["a"], ⟨[2], [3, 4]⟩)], ndim := 1 }

/-- The per-block dispatch of `EnsembleTriDiag.eig0` as the claim states
it: `None` for a zero-length block, the sole diagonal entry for a
length-1 block, the routine value for length at least 2. -/
def eig0Block (f : List Int -> List Int -> Int) :
    List Int -> List Int -> Option Int
  | [], _ => none
  | [x], _ => some x
  | x :: y :: ys, od => some (f (x :: y :: ys) od)

/-- The symmetric tridiagonal matrix the spec describes: `diag` on the
main diagonal, `offdiag` mirrored on the `+1` and `-1` diagonals, zero
elsewhere; a zero-length block gives a 0-by-0 matrix.  Stated from the
spec wording, to be compared with what `asarray` computes. -/
def specTridiagMat (d od : List Int) : NpMat :=
  let n := d.length
  { rows := n, cols := n
    data := (List.range n).map (fun (i : Nat) => (List.range n).map (fun (j : Nat) =>
      if i = j then d.getD i 0
      else if j = i + 1 then od.getD i 0
      else if i = j + 1 then od.getD j 0
      else 0)) }

/-! ### General lemmas about the embedding combinators -/

theorem pyLoop_cons {α β : Type} (f : α → Except PyErr β) (x : α) (xs : List α) :
    pyLoop f (x :: xs) =
      (f x).bind (fun y => (pyLoop f xs).bind (fun ys => .ok (y :: ys))) :=
  rfl

theorem pyLoop_cons_err {α β : Type} {f : α → Except PyErr β} {x : α}
    {xs : List α} {e : PyErr} (h : f x = .error e) :
    pyLoop f (x :: xs) = .error e := by
  simp [pyLoop_cons, h, Except.bind]

theorem pyLoop_of_pointwise {α β : Type} {f : α → Except PyErr β}
    {l : List α} {g : α → β} (h : ∀ a ∈ l, f a = .ok (g a)) :
    pyLoop f l = .ok (l.map g) := by
  induction l with
  | nil => rfl
  | cons x xs ih =>
      have hx := h x (List.mem_cons_self x xs)
      have ht := ih (fun a ha => h a (List.mem_cons_of_mem x ha))
      simp [pyLoop_cons, hx, ht, Except.bind]

theorem pyLoop_ok_forall₂ {α β : Type} {f : α → Except PyErr β} :
    ∀ {l : List α} {l' : List β}, pyLoop f l = .ok l' →
      List.Forall₂ (fun a b => f a = .ok b) l l' := by
  intro l
  induction l with
  | nil => intro l' h; cases h; exact List.Forall₂.nil
  | cons x xs ih =>
      intro l' h
      rw [pyLoop_cons] at h
      cases hx : f x with
      | error e => rw [hx] at h; simp [Except.bind] at h
      | ok y =>
          rw [hx] at h
          cases ht : pyLoop f xs with
          | error e => rw [ht] at h; simp [Except.bind] at h
          | ok ys =>
              rw [ht] at h
              simp only [Except.bind] at h
              cases h
              exact List.Forall₂.cons hx (ih ht)

theorem odInsert_of_not_mem {K V : Type} [DecidableEq K]
    {m : List (K × V)} {k : K} {v : V} (h : k ∉ m.map Prod.fst) :
    odInsert m k v = m ++ [(k, v)] := by
  induction m with
  | nil => rfl
  | cons p rest ih =>
      simp only [List.map_cons, List.mem_cons] at h
      push_neg at h
      simp [odInsert, Ne.symm h.1, ih h.2]

theorem mem_keys_odInsert {K V : Type} [DecidableEq K]
    {m : List (K × V)} {k : K} {v : V} {x : K} :
    x ∈ (odInsert m k v).map Prod.fst ↔ x ∈ m.map Prod.fst ∨ x = k := by
  induction m with
  | nil => simp [odInsert]
  | cons p rest ih =>
      by_cases hp : p.1 = k
      · simp [odInsert, hp]
        tauto
      · simp [odInsert, hp, ih]
        tauto

theorem nodup_keys_odInsert {K V : Type} [DecidableEq K]
    {m : List (K × V)} {k : K} {v : V} (h : (m.map Prod.fst).Nodup) :
    ((odInsert m k v).map Prod.fst).Nodup := by
  induction m with
  | nil => simp [odInsert]
  | cons p rest ih =>
      obtain ⟨pk, pv⟩ := p
      simp only [List.map_cons, List.nodup_cons] at h
      by_cases hp : pk = k
      · subst hp
        simp only [odInsert, if_pos rfl, if_true, eq_self_iff_true,
          List.map_cons, List.nodup_cons]
        exact ⟨h.1, h.2⟩
      · simp only [odInsert, if_neg hp, List.map_cons, List.nodup_cons]
        refine ⟨fun hmem => ?_, ih h.2⟩
        rcases mem_keys_odInsert.mp hmem with hin | hk
        · exact h.1 hin
        · exact hp hk

theorem foldl_odInsert_append {K V : Type} [DecidableEq K] :
    ∀ (pairs acc : List (K × V)),
      (∀ p ∈ pairs, p.1 ∉ acc.map Prod.fst) → (pairs.map Prod.fst).Nodup →
      pairs.foldl (fun m p => odInsert m p.1 p.2) acc = acc ++ pairs := by
  intro pairs
  induction pairs with
  | nil => intro acc _ _; simp
  | cons q rest ih =>
      intro acc hdisj hnd
      simp only [List.map_cons, List.nodup_cons] at hnd
      have hq : q.1 ∉ acc.map Prod.fst := hdisj q (List.mem_cons_self q rest)
      have step : odInsert acc q.1 q.2 = acc ++ [(q.1, q.2)] :=
        odInsert_of_not_mem hq
      have hdisj' : ∀ p ∈ rest, p.1 ∉ (acc ++ [(q.1, q.2)]).map Prod.fst := by
        intro p hp
        simp only [List.map_append, List.mem_append, List.map_cons,
          List.map_nil, List.mem_singleton]
        rintro (hin | hk)
        · exact hdisj p (List.mem_cons_of_mem q hp) hin
        · exact hnd.1 (hk ▸ List.mem_map_of_mem Prod.fst hp)
      calc (q :: rest).foldl (fun m p => odInsert m p.1 p.2) acc
          = rest.foldl (fun m p => odInsert m p.1 p.2) (acc ++ [(q.1, q.2)]) := by
            simp [step]
        _ = (acc ++ [(q.1, q.2)]) ++ rest := ih _ hdisj' hnd.2
        _ = acc ++ q :: rest := by simp

theorem odFromPairs_eq_self {V : Type} {pairs : List (BlockKey × V)}
    (h : (pairs.map Prod.fst).Nodup) : odFromPairs pairs = pairs := by
  have := foldl_odInsert_append pairs [] (by simp) h
  simpa [odFromPairs] using this

theorem nodup_keys_foldl_odInsert {K V : Type} [DecidableEq K] :
    ∀ (pairs acc : List (K × V)), (acc.map Prod.fst).Nodup →
      ((pairs.foldl (fun m p => odInsert m p.1 p.2) acc).map Prod.fst).Nodup := by
  intro pairs
  induction pairs with
  | nil => intro acc h; simpa
  | cons q rest ih =>
      intro acc h
      exact ih _ (nodup_keys_odInsert h)

theorem nodup_keys_odFromPairs {V : Type} (pairs : List (BlockKey × V)) :
    ((odFromPairs pairs).map Prod.fst).Nodup :=
  nodup_keys_foldl_odInsert pairs [] (by simp)

theorem lookup_eq_of_mem_of_nodup {V : Type} :
    ∀ {m : List (BlockKey × V)}, (m.map Prod.fst).Nodup →
      ∀ {p : BlockKey × V}, p ∈ m → m.lookup p.1 = some p.2 := by
  intro m
  induction m with
  | nil => intro _ p hp; cases hp
  | cons q rest ih =>
      intro hnd p hp
      simp only [List.map_cons, List.nodup_cons] at hnd
      rcases List.mem_cons.mp hp with rfl | htail
      · simp [List.lookup]
      · have hne : p.1 ≠ q.1 := by
          intro hk
          exact hnd.1 (hk ▸ List.mem_map_of_mem Prod.fst htail)
        have : (p.1 == q.1) = false := beq_false_of_ne hne
        simp [List.lookup, this, ih hnd.2 htail]

theorem dictGet_eq_of_mem {V : Type} {m : List (BlockKey × V)}
    (hnd : (m.map Prod.fst).Nodup) {p : BlockKey × V} (hp : p ∈ m) :
    dictGet m p.1 = .ok p.2 := by
  simp [dictGet, lookup_eq_of_mem_of_nodup hnd hp]

theorem getD_range_map {γ : Type} (n : Nat) (f : Nat → γ) (i : Nat)
    (dflt : γ) (h : i < n) : (((List.range n).map f).getD i dflt) = f i := by
  rw [List.getD_eq_getElem?_getD, List.getElem?_map, List.getElem?_range h]
  rfl

/-! ### Lemmas about the Cartesian product and the Ensemble constructor -/

theorem listProd_length {α : Type} :
    ∀ ls : List (List α), (listProd ls).length = (ls.map List.length).prod := by
  intro ls
  induction ls with
  | nil => rfl
  | cons ax rest ih =>
      simp only [listProd, List.length_flatMap, List.map_map, List.map_cons,
        List.prod_cons, Function.comp_def, List.length_map, ih]
      rw [List.map_const', List.sum_replicate, smul_eq_mul]

theorem mem_listProd {α : Type} :
    ∀ {ls : List (List α)} {c : List α},
      c ∈ listProd ls ↔ List.Forall₂ (· ∈ ·) c ls := by
  intro ls
  induction ls with
  | nil =>
      intro c
      simp [listProd, List.forall₂_nil_right_iff]
  | cons ax rest ih =>
      intro c
      simp only [listProd, List.mem_flatMap, List.mem_map,
        List.forall₂_cons_right_iff]
      constructor
      · rintro ⟨p, hp, c', hc', rfl⟩
        exact ⟨p, c', hp, ih.mp hc', rfl⟩
      · rintro ⟨p, c', hp, hc', rfl⟩
        exact ⟨p, hp, c', ih.mpr hc', rfl⟩

theorem nodup_map_blockOf :
    ∀ {ls : List (List (String × Int))},
      (∀ ax ∈ ls, (ax.map Prod.fst).Nodup) →
      ((listProd ls).map blockOf).Nodup := by
  intro ls
  induction ls with
  | nil => intro _; simp [listProd, blockOf]
  | cons ax rest ih =>
      intro h
      have hax : (ax.map Prod.fst).Nodup := h ax (List.mem_cons_self ax rest)
      have hrest : ((listProd rest).map blockOf).Nodup :=
        ih (fun a ha => h a (List.mem_cons_of_mem ax ha))
      have hrw : (listProd (ax :: rest)).map blockOf =
          ax.flatMap (fun p => ((listProd rest).map blockOf).map (p.1 :: ·)) := by
        simp only [listProd, List.map_flatMap, List.map_map]
        rfl
      rw [hrw]
      rw [List.nodup_flatMap]
      constructor
      · intro p _
        refine hrest.map ?_
        intro t1 t2 ht
        simpa using ht
      · have hpw : ax.Pairwise (fun p q => p.1 ≠ q.1) := by
          have h1 := hax
          rw [List.Nodup, List.pairwise_map] at h1
          exact h1
        refine hpw.imp ?_
        intro p q hpq
        intro a ha hb
        rcases List.mem_map.mp ha with ⟨t, _, rfl⟩
        rcases List.mem_map.mp hb with ⟨u, _, hu⟩
        simp only [List.cons.injEq] at hu
        exact hpq hu.1.symm

theorem ensemble_degeneracy_eq (axes : List (List AxisObj)) (dd : Int)
    (oid : Nat) :
    (ensembleInit axes dd oid).degeneracy =
      odFromPairs ((listProd (axes.map (formatAxis dd))).map
        (fun c => (blockOf c, degOf c))) := by
  simp [ensembleInit, odFromPairs, List.foldl_map]

theorem ensemble_nodup_keys (axes : List (List AxisObj)) (dd : Int)
    (oid : Nat) :
    ((ensembleInit axes dd oid).degeneracy.map Prod.fst).Nodup := by
  rw [ensemble_degeneracy_eq]
  exact nodup_keys_odFromPairs _

theorem ensembleIter_eq (axes : List (List AxisObj)) (dd : Int) (oid : Nat)
    (h : ∀ ax ∈ axes.map (formatAxis dd), (ax.map Prod.fst).Nodup) :
    ensembleIter (ensembleInit axes dd oid) =
      (listProd (axes.map (formatAxis dd))).map
        (fun c => (blockOf c, degOf c)) := by
  rw [ensembleIter, ensemble_degeneracy_eq]
  refine odFromPairs_eq_self ?_
  rw [List.map_map]
  have hcomp : (Prod.fst ∘ fun c => (blockOf c, degOf c)) = blockOf := rfl
  rw [hcomp]
  exact nodup_map_blockOf h

/-! ### C1: Partition equality -/

/-- C1, counterexample: two `Ensemble` objects built from the identical
axis specification (the concrete scenario of the spec) have identical
ordered block-key-to-degeneracy mappings and identical sorted block
lists, yet compare unequal — `Ensemble` defines no `__eq__`, so `==` is
object identity, refuting that Partitions compare equal iff their ordered
mappings are identical. -/
theorem c1_counterexample :
    (ensembleInit specAxes 1 0).degeneracy = (ensembleInit specAxes 1 1).degeneracy ∧
    (ensembleInit specAxes 1 0).blocks = (ensembleInit specAxes 1 1).blocks ∧
    pyEnsembleEq (ensembleInit specAxes 1 0) (ensembleInit specAxes 1 1) = false := by
  decide

/-- C1, amended: Partition equality is Python object identity (`Ensemble`
defines no `__eq__`): two Partitions compare equal iff they are the same
object; the constructor's content is independent of the object identity,
so identical axis specifications give value-identical but non-equal
Partitions; and `dot` tests exactly this identity before operating,
failing whenever its operands do not share one Partition object. -/
theorem c1_equality_is_identity :
    (∀ e1 e2 : PyEnsemble, pyEnsembleEq e1 e2 = true ↔ e1.oid = e2.oid) ∧
    (∀ (axes : List (List AxisObj)) (dd : Int) (o1 o2 : Nat),
      (ensembleInit axes dd o1).degeneracy = (ensembleInit axes dd o2).degeneracy ∧
      (ensembleInit axes dd o1).blocks = (ensembleInit axes dd o2).blocks) ∧
    (∀ (npDot : NpArray → NpArray → NpArray) (a b : PyArray),
      pyEnsembleEq a.ensemble b.ensemble = false →
      dotPy npDot a b = .error (.valueError "a and b do not share the same ensemble")) := by
  refine ⟨fun e1 e2 => ?_, fun axes dd o1 o2 => ⟨rfl, rfl⟩, fun npDot a b h => ?_⟩
  · simp [pyEnsembleEq]
  · simp [dotPy, h]

/-- Witness for C1: the third conjunct applied to the concrete containers
`aW`, `bW` over value-identical but distinct ensembles. -/
theorem c1_equality_is_identity_witness :
    dotPy (fun x _ => x) aW bW =
      .error (.valueError "a and b do not share the same ensemble") :=
  c1_equality_is_identity.2.2 (fun x _ => x) aW bW (by decide)

/-! ### C2: iteration order -/

/-- C2, counterexample: `Ensemble(["b", "a"])` iterates its
`(block, degeneracy)` pairs in construction order `[("b",), ("a",)]`,
which is not sorted lexicographically — iteration follows the
`degeneracy` dict insertion order, not the sorted `blocks` list. -/
theorem c2_counterexample :
    ((ensembleIter (ensembleInit [[.bare "b", .bare "a"]] 1 0)).map Prod.fst
      = [["b"], ["a"]]) ∧
    ¬ List.Sorted (fun x y => keyLe x y = true)
        ((ensembleIter (ensembleInit [[.bare "b", .bare "a"]] 1 0)).map Prod.fst) := by
  constructor
  · decide
  · decide

/-- C2, amended: for every axis specification whose axes carry distinct
labels, iteration produces the `(block_key, degeneracy)` pairs in the
order of the Cartesian product of the axes as supplied (first axis
varying slowest) — the canonical sorted order lives only in the `blocks`
attribute, and iteration does not follow it. -/
theorem c2_iteration_product_order (axes : List (List AxisObj)) (dd : Int)
    (oid : Nat)
    (h : ∀ ax ∈ axes.map (formatAxis dd), (ax.map Prod.fst).Nodup) :
    ensembleIter (ensembleInit axes dd oid) =
      (listProd (axes.map (formatAxis dd))).map
        (fun c => (blockOf c, degOf c)) :=
  ensembleIter_eq axes dd oid h

/-- Witness for C2: the amended statement evaluated on the unsorted axis
`["b", "a"]`. -/
theorem c2_iteration_product_order_witness :
    ensembleIter (ensembleInit [[.bare "b", .bare "a"]] 1 0) =
      (listProd ([[.bare "b", .bare "a"]].map (formatAxis 1))).map
        (fun c => (blockOf c, degOf c)) :=
  c2_iteration_product_order [[.bare "b", .bare "a"]] 1 0 (by decide)

/-! ### C10: Scalar negation -/

/-- C10, counterexample: a `Scalar` container holding a `None` entry (the
class stores `None` verbatim for blocks without data) raises `TypeError`
at `-None` before the dangling `Array` name is ever reached, refuting
that negation raises `NameError` for every container. -/
theorem c10_counterexample :
    scalarNeg { ensemble := exA, scalar := [(["a"], none)] } =
      .error (.typeError "bad operand type for unary minus: NoneType") := by
  decide

/-- C10, amended: `Scalar.__neg__` never returns a result: for a
container whose entries are all non-`None` it raises `NameError` (the
name `Array` is not defined in `scalar.py`), and otherwise it raises
`TypeError` at the negation of a `None` entry — in either case the
method errors. -/
theorem c10_neg_never_returns :
    (∀ (s : PyScalar) (r : PyScalar), scalarNeg s ≠ .ok r) ∧
    (∀ s : PyScalar, (∀ p ∈ s.scalar, p.2 ≠ none) →
      scalarNeg s = .error (.nameError "name Array is not defined")) := by
  constructor
  · intro s r h
    unfold scalarNeg at h
    cases hp : pyLoop (fun p =>
        match p.2 with
        | some q => Except.ok (p.1, some (-q))
        | none => Except.error (.typeError "bad operand type for unary minus: NoneType"))
        s.scalar with
    | error e => rw [hp] at h; exact Except.noConfusion h
    | ok l => rw [hp] at h; exact Except.noConfusion h
  · intro s hall
    have hpoint : pyLoop (fun p =>
        match p.2 with
        | some q => Except.ok (p.1, some (-q))
        | none => Except.error (.typeError "bad operand type for unary minus: NoneType"))
        s.scalar = .ok (s.scalar.map (fun p => (p.1, p.2.map (fun q => -q)))) := by
      refine pyLoop_of_pointwise ?_
      intro p hp
      cases hv : p.2 with
      | none => exact absurd hv (hall p hp)
      | some q => simp [hv]
    unfold scalarNeg
    rw [hpoint]
    rfl

/-- Witness for C10: the amended statement at the all-numeric container
`sW`. -/
theorem c10_neg_never_returns_witness :
    scalarNeg sW = .error (.nameError "name Array is not defined") :=
  c10_neg_never_returns.2 sW (by decide)

/-! ### Inversion lemmas for the container constructors -/

theorem pybind_ok {α β : Type} {x : Except PyErr α}
    {f : α → Except PyErr β} {b : β} (h : Bind.bind x f = Except.ok b) :
    ∃ a, x = .ok a ∧ f a = .ok b := by
  cases x with
  | error e => exact Except.noConfusion h
  | ok a => exact ⟨a, rfl, h⟩

theorem forall₂_mem_right {α β : Type} {r : α → β → Prop}
    {l : List α} {l' : List β} (h : List.Forall₂ r l l') :
    ∀ b ∈ l', ∃ a ∈ l, r a b := by
  induction h with
  | nil => intro b hb; cases hb
  | cons hab _ ih =>
      intro b hb
      rcases List.mem_cons.mp hb with rfl | htail
      · exact ⟨_, List.mem_cons_self _ _, hab⟩
      · obtain ⟨a, ha, hr⟩ := ih b htail
        exact ⟨a, List.mem_cons_of_mem _ ha, hr⟩

theorem forall₂_fst_eq {V W : Type}
    {r : (BlockKey × V) → (BlockKey × W) → Prop}
    {l : List (BlockKey × V)} {l' : List (BlockKey × W)}
    (h : List.Forall₂ r l l') (hr : ∀ a b, r a b → b.1 = a.1) :
    l'.map Prod.fst = l.map Prod.fst := by
  induction h with
  | nil => rfl
  | cons hab _ ih => simp [hr _ _ hab, ih]

theorem mem_pair_eq_of_nodup {V : Type} {l : List (BlockKey × V)}
    (hnd : (l.map Prod.fst).Nodup) {p q : BlockKey × V}
    (hp : p ∈ l) (hq : q ∈ l) (hk : p.1 = q.1) : p = q := by
  have h1 := lookup_eq_of_mem_of_nodup hnd hp
  have h2 := lookup_eq_of_mem_of_nodup hnd hq
  rw [hk, h2] at h1
  exact Prod.ext hk (Option.some.inj h1).symm

theorem lookup_map_pair {V W : Type} {pairs : List (BlockKey × V)}
    (hnd : (pairs.map Prod.fst).Nodup) {p : BlockKey × V} (hp : p ∈ pairs)
    (f : BlockKey × V → W) :
    (pairs.map (fun q => (q.1, f q))).lookup p.1 = some (f p) := by
  have hk : (pairs.map (fun q => (q.1, f q))).map Prod.fst = pairs.map Prod.fst := by
    simp [List.map_map, Function.comp_def]
  have := lookup_eq_of_mem_of_nodup (m := pairs.map (fun q => (q.1, f q)))
    (by rw [hk]; exact hnd) (p := (p.1, f p))
    (List.mem_map_of_mem _ hp)
  exact this

theorem zipWith_map_same {α β γ δ : Type} (f : β → γ → δ) (g : α → β)
    (h : α → γ) : ∀ l : List α,
    List.zipWith f (l.map g) (l.map h) = l.map (fun x => f (g x) (h x)) := by
  intro l
  induction l with
  | nil => rfl
  | cons x xs ih => simp [ih]

theorem dedup_const {α : Type} [DecidableEq α] :
    ∀ {l : List α} {c : α}, l ≠ [] → (∀ x ∈ l, x = c) → l.dedup = [c] := by
  intro l
  induction l with
  | nil => intro c h; exact absurd rfl h
  | cons x xs ih =>
      intro c _ hall
      have hx : x = c := hall x (List.mem_cons_self x xs)
      subst hx
      cases xs with
      | nil => simp
      | cons y ys =>
          have htail : (y :: ys).dedup = [x] :=
            ih (List.cons_ne_nil y ys)
              (fun z hz => hall z (List.mem_cons_of_mem x hz))
          have hy : y = x := hall y (by simp)
          rw [List.dedup_cons_of_mem (hy ▸ List.mem_cons_self y ys)]
          exact htail

theorem tridiagNormalize_ok_lengths {d od dn odn : List Int}
    (h : tridiagNormalize d od = .ok (dn, odn)) :
    dn = d ∧ (odn.length + 1 = dn.length ∨ (dn.length = 0 ∧ odn.length = 0)) := by
  unfold tridiagNormalize at h
  by_cases h1 : d.length = od.length
  · rw [if_pos h1] at h
    obtain ⟨rfl, rfl⟩ : d = dn ∧ od.dropLast = odn := by
      cases h; exact ⟨rfl, rfl⟩
    refine ⟨rfl, ?_⟩
    rcases Nat.eq_zero_or_pos d.length with hz | hpos
    · right
      refine ⟨hz, ?_⟩
      rw [List.length_dropLast]
      omega
    · left
      rw [List.length_dropLast]
      omega
  · rw [if_neg h1] at h
    by_cases h2 : d.length = od.length + 1
    · rw [if_pos h2] at h
      obtain ⟨rfl, rfl⟩ : d = dn ∧ od = odn := by
        cases h; exact ⟨rfl, rfl⟩
      exact ⟨rfl, Or.inl h2.symm⟩
    · rw [if_neg h2] at h
      exact Except.noConfusion h

/-- Dissecting a successful `tridiagInit`: the ensemble is kept by
reference, both per-block dicts arise from one list of normalized
`(block, (diag, offdiag))` pairs keyed exactly like the ensemble
iteration, and every stored pair is the output of `tridiagNormalize`. -/
theorem tridiagInit_inv {e : PyEnsemble}
    {data : List (BlockKey × List (String × NpArray))} {dt ot : String}
    {t : PyTriDiag} (hnd : (e.degeneracy.map Prod.fst).Nodup)
    (h : tridiagInit e data dt ot = .ok t) :
    t.ensemble = e ∧ e.degeneracy ≠ [] ∧
    ∃ pairs : List (BlockKey × (List Int × List Int)),
      t.diag = pairs.map (fun p => (p.1, p.2.1)) ∧
      t.offdiag = pairs.map (fun p => (p.1, p.2.2)) ∧
      pairs.map Prod.fst = e.degeneracy.map Prod.fst ∧
      (∀ p ∈ pairs, ∃ d0 od0, tridiagNormalize d0 od0 = .ok p.2) := by
  unfold tridiagInit at h
  obtain ⟨ensDiag, hD, h⟩ := pybind_ok h
  obtain ⟨ensOffdiag, hOD, h⟩ := pybind_ok h
  obtain ⟨pairs, hloop, hfin⟩ := pybind_ok h
  have hne : e.degeneracy ≠ [] := by
    intro hemp
    unfold arrayFromDataTag at hD
    obtain ⟨prs, hl, hb⟩ := pybind_ok hD
    rw [hemp] at hl
    cases hl
    unfold arrayBuild at hb
    simp [odFromPairs] at hb
  have hfa := pyLoop_ok_forall₂ hloop
  have hkeys : pairs.map Prod.fst = e.degeneracy.map Prod.fst := by
    refine forall₂_fst_eq hfa ?_
    intro bd p hbd
    obtain ⟨dArr, _, hbd⟩ := pybind_ok hbd
    obtain ⟨odArr, _, hbd⟩ := pybind_ok hbd
    obtain ⟨dod, _, hbd⟩ := pybind_ok hbd
    cases hbd
    rfl
  have hnorm : ∀ p ∈ pairs, ∃ d0 od0, tridiagNormalize d0 od0 = .ok p.2 := by
    intro p hp
    obtain ⟨bd, _, hbd⟩ := forall₂_mem_right hfa p hp
    obtain ⟨dArr, _, hbd⟩ := pybind_ok hbd
    obtain ⟨odArr, _, hbd⟩ := pybind_ok hbd
    obtain ⟨dod, hdod, hbd⟩ := pybind_ok hbd
    cases hbd
    exact ⟨dArr.data, odArr.data, hdod⟩
  have ht : t = { ensemble := e
                  diag := odFromPairs (pairs.map (fun p => (p.1, p.2.1)))
                  offdiag := odFromPairs (pairs.map (fun p => (p.1, p.2.2))) } := by
    cases hfin
    rfl
  have hk1 : ((pairs.map (fun p => (p.1, p.2.1))).map Prod.fst).Nodup := by
    simpa [List.map_map, Function.comp_def, hkeys] using hnd
  have hk2 : ((pairs.map (fun p => (p.1, p.2.2))).map Prod.fst).Nodup := by
    simpa [List.map_map, Function.comp_def, hkeys] using hnd
  refine ⟨by rw [ht], hne, pairs, ?_, ?_, hkeys, hnorm⟩
  · rw [ht]
    exact odFromPairs_eq_self hk1
  · rw [ht]
    exact odFromPairs_eq_self hk2

/-! ### C3: block enumeration -/

theorem exists_combo_iff {F : List (List (String × Int))} {b : BlockKey} :
    (∃ c, c ∈ listProd F ∧ blockOf c = b) ↔
    List.Forall₂ (fun s ax => s ∈ ax.map Prod.fst) b F := by
  constructor
  · rintro ⟨c, hc, rfl⟩
    have h2 := mem_listProd.mp hc
    rw [blockOf, List.forall₂_map_left_iff]
    exact h2.imp (fun a ax hmem => List.mem_map_of_mem Prod.fst hmem)
  · intro h
    induction h with
    | nil => exact ⟨[], by simp [listProd], rfl⟩
    | cons hs _ ih =>
        obtain ⟨c', hc', hb'⟩ := ih
        obtain ⟨p, hp, hps⟩ := List.mem_map.mp hs
        refine ⟨p :: c', ?_, ?_⟩
        · simp only [listProd, List.mem_flatMap, List.mem_map]
          exact ⟨p, hp, c', hc', rfl⟩
        · simp [blockOf] at hb' ⊢
          exact ⟨hps, hb'⟩

/-- C3: for every axis specification whose axes carry pairwise distinct
labels, the constructed Partition enumerates exactly the product of the
axis sizes as blocks, the block keys are distinct, a key is enumerated
iff it picks one label from each axis (the full Cartesian product), and
each combination of axis entries is stored with the product of its
per-axis degeneracies (`degOf`), bare labels receiving the default
degeneracy through `formatEntry`. -/
theorem c3_partition_cartesian (axes : List (List AxisObj)) (dd : Int)
    (oid : Nat)
    (h : ∀ ax ∈ axes.map (formatAxis dd), (ax.map Prod.fst).Nodup) :
    ((ensembleIter (ensembleInit axes dd oid)).length =
        (axes.map List.length).prod) ∧
    (((ensembleIter (ensembleInit axes dd oid)).map Prod.fst).Nodup) ∧
    (∀ b : BlockKey,
      b ∈ (ensembleIter (ensembleInit axes dd oid)).map Prod.fst ↔
      List.Forall₂ (fun s ax => s ∈ ax.map Prod.fst) b
        (axes.map (formatAxis dd))) ∧
    (∀ po : List AxisObj, List.Forall₂ (· ∈ ·) po axes →
      (blockOf (po.map (formatEntry dd)), degOf (po.map (formatEntry dd))) ∈
        ensembleIter (ensembleInit axes dd oid)) := by
  have hIter := ensembleIter_eq axes dd oid h
  refine ⟨?_, ?_, ?_, ?_⟩
  · rw [hIter, List.length_map, listProd_length]
    congr 1
    rw [List.map_map]
    refine List.map_congr_left ?_
    intro ax _
    simp [formatAxis]
  · rw [hIter, List.map_map]
    have hcomp : (Prod.fst ∘ fun c => (blockOf c, degOf c)) = blockOf := rfl
    rw [hcomp]
    exact nodup_map_blockOf h
  · intro b
    rw [hIter, List.map_map]
    have hcomp : (Prod.fst ∘ fun c => (blockOf c, degOf c)) = blockOf := rfl
    rw [hcomp]
    rw [List.mem_map]
    exact exists_combo_iff (F := axes.map (formatAxis dd))
  · intro po hpo
    rw [hIter]
    refine List.mem_map.mpr ⟨po.map (formatEntry dd), ?_, rfl⟩
    refine mem_listProd.mpr ?_
    rw [List.forall₂_map_left_iff, List.forall₂_map_right_iff]
    exact hpo.imp (fun a ax hmem => List.mem_map_of_mem (formatEntry dd) hmem)

/-- Witness for C3: the concrete two-axis scenario from the spec has four
blocks (the product of the axis sizes) with distinct keys. -/
theorem c3_partition_cartesian_witness :
    (ensembleIter (ensembleInit specAxes 1 0)).length =
        (specAxes.map List.length).prod ∧
    ((ensembleIter (ensembleInit specAxes 1 0)).map Prod.fst).Nodup := by
  have hc := c3_partition_cartesian specAxes 1 0 (by decide)
  exact ⟨hc.1, hc.2.1⟩

theorem pybind_ok_reduce {α β : Type} (x : α) (f : α → Except PyErr β) :
    Bind.bind (Except.ok x) f = f x := rfl

theorem exbind_ok_reduce {α β : Type} (x : α) (f : α → Except PyErr β) :
    (Except.ok x).bind f = f x := rfl

theorem dictGet_eq_ok {V : Type} {m : List (BlockKey × V)} {k : BlockKey}
    {v : V} (h : m.lookup k = some v) : dictGet m k = .ok v := by
  simp [dictGet, h]

theorem map_keyfun_eq {V W : Type} {pairs : List (BlockKey × V)}
    {ks : List (BlockKey × Int)}
    (hkeys : pairs.map Prod.fst = ks.map Prod.fst) (G : BlockKey → W) :
    ks.map (fun bd => (bd.1, G bd.1)) = pairs.map (fun p => (p.1, G p.1)) := by
  have h1 : ks.map (fun bd => (bd.1, G bd.1)) =
      (ks.map Prod.fst).map (fun k => (k, G k)) := by
    rw [List.map_map]; rfl
  have h2 : pairs.map (fun p => (p.1, G p.1)) =
      (pairs.map Prod.fst).map (fun k => (k, G k)) := by
    rw [List.map_map]; rfl
  rw [h1, h2, hkeys]

/-! ### C4: tridiagonal length normalization -/

/-- C4, counterexample: a zero-length block (`d = []`, `od = []`) is
accepted by the constructor (the equal-length branch trims nothing), but
the resulting block has `len(offdiag) = 0` and `len(diag) - 1 = -1` as
integers, so the advertised post-invariant `len(offdiag) == len(diag) - 1`
fails on it. -/
theorem c4_counterexample :
    tridiagInit exA [(["a"], [("diag", ⟨[0], []⟩), ("offdiag", ⟨[0], []⟩)])]
        "diag" "offdiag"
      = .ok { ensemble := exA, diag := [(["a"], [])], offdiag := [(["a"], [])] } ∧
    ¬ ((([] : List Int).length : Int) = (([] : List Int).length : Int) - 1) := by
  constructor
  · decide
  · decide

/-- C4, amended: the constructor accepts a block iff `len(od) == len(d)`
or `len(od) == len(d) - 1` and fails with a value error otherwise; it
keeps the diagonal and normalizes by trimming one trailing off-diagonal
entry when the lengths are equal; and after successful construction every
block with a nonempty diagonal satisfies `len(offdiag) == len(diag) - 1`,
while a zero-length block has both vectors empty (there the claimed
integer identity cannot hold). -/
theorem c4_tridiag_normalization :
    (∀ d od : List Int,
      (tridiagNormalize d od).isOk = true ↔
        (od.length = d.length ∨ (od.length : Int) = (d.length : Int) - 1)) ∧
    (∀ d od dn odn : List Int, tridiagNormalize d od = .ok (dn, odn) →
      dn = d ∧ (1 ≤ dn.length → (odn.length : Int) = (dn.length : Int) - 1) ∧
      (dn.length = 0 → odn.length = 0)) ∧
    (∀ (e : PyEnsemble) (data : List (BlockKey × List (String × NpArray)))
        (dt ot : String) (t : PyTriDiag),
      (e.degeneracy.map Prod.fst).Nodup →
      tridiagInit e data dt ot = .ok t →
      ∀ (b : BlockKey) (d od : List Int), (b, d) ∈ t.diag → (b, od) ∈ t.offdiag →
        (1 ≤ d.length → (od.length : Int) = (d.length : Int) - 1) ∧
        (d.length = 0 → od.length = 0)) := by
  refine ⟨?_, ?_, ?_⟩
  · intro d od
    unfold tridiagNormalize
    by_cases h1 : d.length = od.length
    · simp only [if_pos h1, Except.isOk, Except.toBool]
      constructor
      · intro _; exact Or.inl h1.symm
      · intro _; trivial
    · rw [if_neg h1]
      by_cases h2 : d.length = od.length + 1
      · simp only [if_pos h2, Except.isOk, Except.toBool]
        constructor
        · intro _; right; omega
        · intro _; trivial
      · simp only [if_neg h2, Except.isOk, Except.toBool]
        constructor
        · intro hfalse; exact Bool.noConfusion hfalse
        · intro hor; omega
  · intro d od dn odn hok
    obtain ⟨rfl, hlen⟩ := tridiagNormalize_ok_lengths hok
    refine ⟨rfl, ?_, ?_⟩ <;> omega
  · intro e data dt ot t hnd hinit b d od hd hod
    obtain ⟨_, _, pairs, hdiag, hoffdiag, hkeys, hnorm⟩ := tridiagInit_inv hnd hinit
    rw [hdiag] at hd
    rw [hoffdiag] at hod
    obtain ⟨p, hp, hpe⟩ := List.mem_map.mp hd
    obtain ⟨q, hq, hqe⟩ := List.mem_map.mp hod
    have hkeynd : (pairs.map Prod.fst).Nodup := by rw [hkeys]; exact hnd
    have hpq : p = q := by
      refine mem_pair_eq_of_nodup hkeynd hp hq ?_
      have h1 : p.1 = b := congrArg Prod.fst hpe
      have h2 : q.1 = b := congrArg Prod.fst hqe
      rw [h1, h2]
    obtain ⟨d0, od0, hn⟩ := hnorm p hp
    obtain ⟨_, hlen⟩ := @tridiagNormalize_ok_lengths d0 od0 p.2.1 p.2.2
      (by rw [← Prod.mk.eta (p := p.2)] at hn; exact hn)
    have hdv : d = p.2.1 := (congrArg Prod.snd hpe).symm
    have hodv : od = q.2.2 := (congrArg Prod.snd hqe).symm
    rw [hpq] at hlen hdv
    rw [hdv, hodv]
    refine ⟨?_, ?_⟩ <;> omega

/-- Witness for C4: the acceptance test and the normalization invariant
evaluated on the block `d = [1, 2]`, `od = [7, 7]` (equal lengths, so the
trailing off-diagonal entry is trimmed). -/
theorem c4_tridiag_normalization_witness :
    (tridiagNormalize [1, 2] [7, 7]).isOk = true ∧
    (([1, 2] : List Int) = [1, 2] ∧
      (1 ≤ ([1, 2] : List Int).length →
        ((([7] : List Int).length : Int) = (([1, 2] : List Int).length : Int) - 1)) ∧
      (([1, 2] : List Int).length = 0 → ([7] : List Int).length = 0)) :=
  ⟨(c4_tridiag_normalization.1 [1, 2] [7, 7]).mpr (Or.inl (by decide)),
   c4_tridiag_normalization.2.1 [1, 2] [7, 7] [1, 2] [7] (by decide)⟩

/-! ### C5: smallest eigenvalue dispatch -/

/-- C5: for every trusted eigenvalue routine and every container built by
the `EnsembleTriDiag` constructor, `eig0` succeeds and returns an
`EnsembleScalar` over the same ensemble whose entry per block is `None`
for a zero-length block, the sole diagonal entry for a length-1 block,
and the routine value (the selective-range call requesting only the
lowest index) for every longer block — in ensemble order. -/
theorem c5_eig0_dispatch (f : List Int → List Int → Int) (e : PyEnsemble)
    (data : List (BlockKey × List (String × NpArray))) (dt ot : String)
    (t : PyTriDiag) (hnd : (e.degeneracy.map Prod.fst).Nodup)
    (h : tridiagInit e data dt ot = .ok t) :
    ∃ s : PyScalar, eig0 f t = .ok s ∧ s.ensemble = t.ensemble ∧
      s.scalar = List.zipWith (fun dp odp => (dp.1, eig0Block f dp.2 odp.2))
        t.diag t.offdiag := by
  obtain ⟨hte, _, pairs, hdiag, hoffdiag, hkeys, _⟩ := tridiagInit_inv hnd h
  have hnd' : (t.ensemble.degeneracy.map Prod.fst).Nodup := by
    rw [hte]; exact hnd
  have hkeys' : pairs.map Prod.fst = t.ensemble.degeneracy.map Prod.fst := by
    rw [hte]; exact hkeys
  have hkeynd : (pairs.map Prod.fst).Nodup := by rw [hkeys']; exact hnd'
  have hlookup : ∀ p ∈ pairs,
      t.diag.lookup p.1 = some p.2.1 ∧ t.offdiag.lookup p.1 = some p.2.2 := by
    intro p hp
    constructor
    · rw [hdiag]; exact lookup_map_pair hkeynd hp (fun q => q.2.1)
    · rw [hoffdiag]; exact lookup_map_pair hkeynd hp (fun q => q.2.2)
  have hpoint : ∀ (bd : BlockKey × Int), bd ∈ t.ensemble.degeneracy →
      (do
        let d ← dictGet t.diag bd.1
        match d with
        | [] => Except.ok (bd.1, (none : Option Int))
        | [x] => Except.ok (bd.1, some x)
        | _ => do
            let od ← dictGet t.offdiag bd.1
            Except.ok (bd.1, some (f d od))) =
      Except.ok (bd.1, eig0Block f ((t.diag.lookup bd.1).getD [])
        ((t.offdiag.lookup bd.1).getD [])) := by
    intro bd hbd
    have hmem : bd.1 ∈ pairs.map Prod.fst := by
      rw [hkeys']; exact List.mem_map_of_mem Prod.fst hbd
    obtain ⟨p, hp, hp1⟩ := List.mem_map.mp hmem
    obtain ⟨hlkd, hlko⟩ := hlookup p hp
    rw [← hp1, hlkd, hlko, Option.getD_some, Option.getD_some,
      dictGet_eq_ok hlkd, pybind_ok_reduce]
    rcases p.2.1 with _ | ⟨x, _ | ⟨y, ys⟩⟩
    · rfl
    · rfl
    · rw [dictGet_eq_ok hlko, pybind_ok_reduce]
      rfl
  have hloop := pyLoop_of_pointwise
    (g := fun (bd : BlockKey × Int) => (bd.1,
      eig0Block f ((t.diag.lookup bd.1).getD [])
        ((t.offdiag.lookup bd.1).getD []))) hpoint
  have hres : t.ensemble.degeneracy.map
      (fun bd => (bd.1, eig0Block f ((t.diag.lookup bd.1).getD [])
        ((t.offdiag.lookup bd.1).getD []))) =
      pairs.map (fun p => (p.1, eig0Block f p.2.1 p.2.2)) := by
    rw [map_keyfun_eq hkeys'
      (fun k => eig0Block f ((t.diag.lookup k).getD []) ((t.offdiag.lookup k).getD []))]
    refine List.map_congr_left ?_
    intro p hp
    obtain ⟨hlkd, hlko⟩ := hlookup p hp
    rw [hlkd, hlko, Option.getD_some, Option.getD_some]
  have hresnd : ((pairs.map (fun p => (p.1, eig0Block f p.2.1 p.2.2))).map
      Prod.fst).Nodup := by
    simpa [List.map_map, Function.comp_def] using hkeynd
  have hscal_point : ∀ (bd : BlockKey × Int), bd ∈ t.ensemble.degeneracy →
      (do
        let v ← dictGet (pairs.map (fun p => (p.1, eig0Block f p.2.1 p.2.2))) bd.1
        Except.ok (bd.1, v)) =
      Except.ok (bd.1, eig0Block f ((t.diag.lookup bd.1).getD [])
        ((t.offdiag.lookup bd.1).getD [])) := by
    intro bd hbd
    have hmem : bd.1 ∈ pairs.map Prod.fst := by
      rw [hkeys']; exact List.mem_map_of_mem Prod.fst hbd
    obtain ⟨p, hp, hp1⟩ := List.mem_map.mp hmem
    obtain ⟨hlkd, hlko⟩ := hlookup p hp
    have hlk : (pairs.map (fun p => (p.1, eig0Block f p.2.1 p.2.2))).lookup p.1 =
        some (eig0Block f p.2.1 p.2.2) :=
      lookup_map_pair hkeynd hp (fun q => eig0Block f q.2.1 q.2.2)
    rw [← hp1, hlkd, hlko, Option.getD_some, Option.getD_some,
      dictGet_eq_ok hlk, pybind_ok_reduce]
  have hscal := pyLoop_of_pointwise
    (g := fun (bd : BlockKey × Int) => (bd.1,
      eig0Block f ((t.diag.lookup bd.1).getD [])
        ((t.offdiag.lookup bd.1).getD []))) hscal_point
  refine ⟨{ ensemble := t.ensemble
            scalar := pairs.map (fun p => (p.1, eig0Block f p.2.1 p.2.2)) },
    ?_, rfl, ?_⟩
  · unfold eig0
    rw [hloop, pybind_ok_reduce]
    unfold ensScalarInit
    rw [hres, hscal, pybind_ok_reduce, hres, odFromPairs_eq_self hresnd]
  · rw [hdiag, hoffdiag, zipWith_map_same]

/-- Witness for C5: the dispatch succeeds on the three-block fixture
holding blocks of length 0, 1 and 3, with the routine modeled by the
head function. -/
theorem c5_eig0_dispatch_witness :
    (eig0 (fun d _ => d.headD 0) tW3).isOk = true := by
  obtain ⟨s, hs, _⟩ := c5_eig0_dispatch (fun d _ => d.headD 0) exABC dataW3
    "diag" "offdiag" tW3 (by decide) (by decide)
  rw [hs]
  rfl

/-! ### C6: dense reconstruction -/

theorem npMatAdd_same {x y : NpMat} {n c : Nat} (hx : x.rows = n)
    (hy : y.rows = n) (hxc : x.cols = c) (hyc : y.cols = c) :
    npMatAdd x y = .ok
      { rows := n, cols := c,
        data := (List.range n).map (fun i => (List.range c).map (fun j =>
          brEntry x i j + brEntry y i j)) } := by
  subst hx hxc
  unfold npMatAdd
  rw [hy, hyc]
  simp [brDim]

theorem brEntry_npDiagMat (v : List Int) (k : Int) {n : Nat}
    (hn : v.length + k.natAbs = n) {i j : Nat} (hi : i < n) (hj : j < n) :
    brEntry (npDiagMat v k) i j =
      if (j : Int) - (i : Int) = k then v.getD (min i j) 0 else 0 := by
  subst hn
  unfold brEntry npDiagMat
  simp only
  have hi' : (if v.length + k.natAbs = 1 then 0 else i) = i := by
    split <;> omega
  have hj' : (if v.length + k.natAbs = 1 then 0 else j) = j := by
    split <;> omega
  rw [hi', hj', getD_range_map _ _ i _ hi, getD_range_map _ _ j _ hj]

theorem tridiag_entries (d od : List Int) {i j : Nat}
    (_hi : i < d.length) (hj : j < d.length) :
    ((if (j : Int) - (i : Int) = 0 then d.getD (min i j) 0 else 0) +
     (if (j : Int) - (i : Int) = 1 then od.getD (min i j) 0 else 0)) +
    (if (j : Int) - (i : Int) = -1 then od.getD (min i j) 0 else 0) =
    (if i = j then d.getD i 0
     else if j = i + 1 then od.getD i 0
     else if i = j + 1 then od.getD j 0
     else 0) := by
  by_cases h1 : i = j
  · subst h1
    rw [if_pos (by omega : (i : Int) - (i : Int) = 0),
      if_neg (by omega : ¬((i : Int) - (i : Int) = 1)),
      if_neg (by omega : ¬((i : Int) - (i : Int) = -1)),
      if_pos rfl, min_self]
    omega
  · by_cases h2 : j = i + 1
    · rw [if_neg (by omega : ¬((j : Int) - (i : Int) = 0)),
        if_pos (by omega : (j : Int) - (i : Int) = 1),
        if_neg (by omega : ¬((j : Int) - (i : Int) = -1)),
        if_neg h1, if_pos h2, min_eq_left (by omega : i ≤ j)]
      omega
    · by_cases h3 : i = j + 1
      · rw [if_neg (by omega : ¬((j : Int) - (i : Int) = 0)),
          if_neg (by omega : ¬((j : Int) - (i : Int) = 1)),
          if_pos (by omega : (j : Int) - (i : Int) = -1),
          if_neg h1, if_neg h2, if_pos h3, min_eq_right (by omega : j ≤ i)]
        omega
      · rw [if_neg (by omega : ¬((j : Int) - (i : Int) = 0)),
          if_neg (by omega : ¬((j : Int) - (i : Int) = 1)),
          if_neg (by omega : ¬((j : Int) - (i : Int) = -1)),
          if_neg h1, if_neg h2, if_neg h3]
        omega

/-- The two broadcast additions of `asarray` on one block reproduce the
spec matrix, for every length combination the constructor can store
(including the zero-length block, where numpy broadcasting collapses the
`(0,0) + (1,1) + (1,1)` sum to a 0-by-0 matrix). -/
theorem npMatAdd_tridiag (d od : List Int)
    (hlen : od.length + 1 = d.length ∨ (d.length = 0 ∧ od.length = 0)) :
    ∃ m1, npMatAdd (npDiagMat d 0) (npDiagMat od 1) = .ok m1 ∧
      npMatAdd m1 (npDiagMat od (-1)) = .ok (specTridiagMat d od) := by
  rcases hlen with hlen | ⟨hd0, hod0⟩
  · have hrows1 : (npDiagMat d 0).rows = d.length := by simp [npDiagMat]
    have hcols1 : (npDiagMat d 0).cols = d.length := by simp [npDiagMat]
    have hrows2 : (npDiagMat od 1).rows = d.length := by simp [npDiagMat]; omega
    have hcols2 : (npDiagMat od 1).cols = d.length := by simp [npDiagMat]; omega
    have hrows3 : (npDiagMat od (-1)).rows = d.length := by simp [npDiagMat]; omega
    have hcols3 : (npDiagMat od (-1)).cols = d.length := by simp [npDiagMat]; omega
    have hm1 := npMatAdd_same hrows1 hrows2 hcols1 hcols2
    refine ⟨_, hm1, ?_⟩
    have hm2 := npMatAdd_same
      (x := { rows := d.length, cols := d.length,
              data := (List.range d.length).map (fun i =>
                (List.range d.length).map (fun j =>
                  brEntry (npDiagMat d 0) i j + brEntry (npDiagMat od 1) i j)) })
      (y := npDiagMat od (-1)) rfl hrows3 rfl hcols3
    rw [hm2]
    congr 1
    unfold specTridiagMat
    simp only
    refine congrArg _ ?_
    refine List.map_congr_left ?_
    intro i hii
    have hi : i < d.length := List.mem_range.mp hii
    refine List.map_congr_left ?_
    intro j hjj
    have hj : j < d.length := List.mem_range.mp hjj
    have hB : brEntry
        { rows := d.length, cols := d.length,
          data := (List.range d.length).map (fun i =>
            (List.range d.length).map (fun j =>
              brEntry (npDiagMat d 0) i j + brEntry (npDiagMat od 1) i j)) } i j =
        brEntry (npDiagMat d 0) i j + brEntry (npDiagMat od 1) i j := by
      unfold brEntry
      simp only
      have hi' : (if d.length = 1 then 0 else i) = i := by split <;> omega
      have hj' : (if d.length = 1 then 0 else j) = j := by split <;> omega
      rw [hi', hj', getD_range_map _ _ i _ hi, getD_range_map _ _ j _ hj]
    rw [hB, brEntry_npDiagMat d 0 (by simp) hi hj,
      brEntry_npDiagMat od 1 (by simp; omega) hi hj,
      brEntry_npDiagMat od (-1) (by simp; omega) hi hj]
    exact tridiag_entries d od hi hj
  · have hd : d = [] := List.length_eq_zero.mp hd0
    have hod : od = [] := List.length_eq_zero.mp hod0
    subst hd hod
    exact ⟨{ rows := 0, cols := 0, data := [] }, by decide, by decide⟩

/-- C6: for every container built by the `EnsembleTriDiag` constructor,
`asarray` succeeds and returns an `EnsembleArray` over the same ensemble
whose block matrices are exactly the spec matrices: diag on the main
diagonal, offdiag mirrored on the adjacent diagonals, zero elsewhere,
and a 0-by-0 matrix for a zero-length block. -/
theorem c6_asarray_dense (e : PyEnsemble)
    (data : List (BlockKey × List (String × NpArray))) (dt ot : String)
    (t : PyTriDiag) (hnd : (e.degeneracy.map Prod.fst).Nodup)
    (h : tridiagInit e data dt ot = .ok t) :
    ∃ A : PyArray, asarray t = .ok A ∧ A.ensemble = t.ensemble ∧
      A.array = List.zipWith
        (fun dp odp => (dp.1, matToArray (specTridiagMat dp.2 odp.2)))
        t.diag t.offdiag := by
  obtain ⟨hte, hne, pairs, hdiag, hoffdiag, hkeys, hnorm⟩ := tridiagInit_inv hnd h
  have hnd' : (t.ensemble.degeneracy.map Prod.fst).Nodup := by
    rw [hte]; exact hnd
  have hne' : t.ensemble.degeneracy ≠ [] := by rw [hte]; exact hne
  have hkeys' : pairs.map Prod.fst = t.ensemble.degeneracy.map Prod.fst := by
    rw [hte]; exact hkeys
  have hkeynd : (pairs.map Prod.fst).Nodup := by rw [hkeys']; exact hnd'
  have hlookup : ∀ p ∈ pairs,
      t.diag.lookup p.1 = some p.2.1 ∧ t.offdiag.lookup p.1 = some p.2.2 := by
    intro p hp
    constructor
    · rw [hdiag]; exact lookup_map_pair hkeynd hp (fun q => q.2.1)
    · rw [hoffdiag]; exact lookup_map_pair hkeynd hp (fun q => q.2.2)
  have hlens : ∀ p ∈ pairs,
      p.2.2.length + 1 = p.2.1.length ∨ (p.2.1.length = 0 ∧ p.2.2.length = 0) := by
    intro p hp
    obtain ⟨d0, od0, hn⟩ := hnorm p hp
    obtain ⟨_, hlen⟩ := @tridiagNormalize_ok_lengths d0 od0 p.2.1 p.2.2
      (by rw [← Prod.mk.eta (p := p.2)] at hn; exact hn)
    exact hlen
  have hpoint : ∀ (bd : BlockKey × Int), bd ∈ t.ensemble.degeneracy →
      (do
        let d ← dictGet t.diag bd.1
        let od ← dictGet t.offdiag bd.1
        let m1 ← npMatAdd (npDiagMat d 0) (npDiagMat od 1)
        let m2 ← npMatAdd m1 (npDiagMat od (-1))
        Except.ok (bd.1, matToArray m2)) =
      Except.ok (bd.1, matToArray (specTridiagMat
        ((t.diag.lookup bd.1).getD []) ((t.offdiag.lookup bd.1).getD []))) := by
    intro bd hbd
    have hmem : bd.1 ∈ pairs.map Prod.fst := by
      rw [hkeys']; exact List.mem_map_of_mem Prod.fst hbd
    obtain ⟨p, hp, hp1⟩ := List.mem_map.mp hmem
    obtain ⟨hlkd, hlko⟩ := hlookup p hp
    obtain ⟨m1, hm1, hm2⟩ := npMatAdd_tridiag p.2.1 p.2.2 (hlens p hp)
    rw [← hp1, hlkd, hlko, Option.getD_some, Option.getD_some,
      dictGet_eq_ok hlkd, pybind_ok_reduce, dictGet_eq_ok hlko,
      pybind_ok_reduce, hm1, pybind_ok_reduce, hm2, pybind_ok_reduce]
  have hloop := pyLoop_of_pointwise
    (g := fun (bd : BlockKey × Int) => (bd.1, matToArray (specTridiagMat
      ((t.diag.lookup bd.1).getD []) ((t.offdiag.lookup bd.1).getD [])))) hpoint
  have hres : t.ensemble.degeneracy.map
      (fun bd => (bd.1, matToArray (specTridiagMat
        ((t.diag.lookup bd.1).getD []) ((t.offdiag.lookup bd.1).getD [])))) =
      pairs.map (fun p => (p.1, matToArray (specTridiagMat p.2.1 p.2.2))) := by
    rw [map_keyfun_eq hkeys'
      (fun k => matToArray (specTridiagMat ((t.diag.lookup k).getD [])
        ((t.offdiag.lookup k).getD [])))]
    refine List.map_congr_left ?_
    intro p hp
    obtain ⟨hlkd, hlko⟩ := hlookup p hp
    rw [hlkd, hlko, Option.getD_some, Option.getD_some]
  have hresnd : ((pairs.map (fun p =>
      (p.1, matToArray (specTridiagMat p.2.1 p.2.2)))).map Prod.fst).Nodup := by
    simpa [List.map_map, Function.comp_def] using hkeynd
  have harr_point : ∀ (bd : BlockKey × Int), bd ∈ t.ensemble.degeneracy →
      (do
        let ar ← dictGet (pairs.map (fun p =>
          (p.1, matToArray (specTridiagMat p.2.1 p.2.2)))) bd.1
        Except.ok (bd.1, ar)) =
      Except.ok (bd.1, matToArray (specTridiagMat
        ((t.diag.lookup bd.1).getD []) ((t.offdiag.lookup bd.1).getD []))) := by
    intro bd hbd
    have hmem : bd.1 ∈ pairs.map Prod.fst := by
      rw [hkeys']; exact List.mem_map_of_mem Prod.fst hbd
    obtain ⟨p, hp, hp1⟩ := List.mem_map.mp hmem
    obtain ⟨hlkd, hlko⟩ := hlookup p hp
    have hlk : (pairs.map (fun p =>
        (p.1, matToArray (specTridiagMat p.2.1 p.2.2)))).lookup p.1 =
        some (matToArray (specTridiagMat p.2.1 p.2.2)) :=
      lookup_map_pair hkeynd hp (fun q => matToArray (specTridiagMat q.2.1 q.2.2))
    rw [← hp1, hlkd, hlko, Option.getD_some, Option.getD_some,
      dictGet_eq_ok hlk, pybind_ok_reduce]
  have harr := pyLoop_of_pointwise
    (g := fun (bd : BlockKey × Int) => (bd.1, matToArray (specTridiagMat
      ((t.diag.lookup bd.1).getD []) ((t.offdiag.lookup bd.1).getD [])))) harr_point
  have hdedup : ((pairs.map (fun p =>
      (p.1, matToArray (specTridiagMat p.2.1 p.2.2)))).map
        (fun p => p.2.shape.length)).dedup = [2] := by
    refine dedup_const ?_ ?_
    · intro hemp
      rw [List.map_eq_nil_iff, List.map_eq_nil_iff] at hemp
      rw [hemp] at hkeys'
      exact hne' (List.map_eq_nil_iff.mp hkeys'.symm)
    · intro x hx
      obtain ⟨q, _, rfl⟩ := List.mem_map.mp hx
      obtain ⟨p, _, rfl⟩ := List.mem_map.mp (by exact ‹q ∈ _›)
      rfl
  refine ⟨{ ensemble := t.ensemble
            array := pairs.map (fun p =>
              (p.1, matToArray (specTridiagMat p.2.1 p.2.2)))
            ndim := 2 }, ?_, rfl, ?_⟩
  · unfold asarray
    rw [hloop, pybind_ok_reduce]
    unfold arrayFromData
    rw [hres, harr, pybind_ok_reduce]
    simp only [arrayBuild]
    rw [hres, odFromPairs_eq_self hresnd, hdedup]
  · rw [hdiag, hoffdiag, zipWith_map_same]

/-- Witness for C6: `asarray` succeeds on the three-block fixture. -/
theorem c6_asarray_dense_witness : (asarray tW3).isOk = true := by
  obtain ⟨A, hA, _⟩ := c6_asarray_dense exABC dataW3 "diag" "offdiag" tW3
    (by decide) (by decide)
  rw [hA]
  rfl

/-! ### C7: indexing with empty blocks -/

/-- C7, code bug: `Array.__getitem__` writes
`np.empty(self.ndim * (0))` for an empty block, but `self.ndim * (0)` is
the integer zero (the adjacent leftover `print(self.ndim * (0,))` in
`EnsembleArray.__getitem__` shows the shape tuple that was intended), so
the empty block always yields a 1-D empty array regardless of `ndim`.
On the one-block 2-D container, slicing yields a block of
dimensionality 1, not 2; on the two-block container, the re-invoked
constructor then rejects the mixed dimensionalities and the indexing
raises instead of never raising. -/
theorem c7_getitem_empty_block_bug :
    (arrayFromData exA [(["a"], ⟨[0, 2], []⟩)] = .ok aEmpty2 ∧ aEmpty2.ndim = 2) ∧
    (arrayGetitem aEmpty2 (.slice 0 1) =
      .ok { ensemble := exA, array := [(["a"], ⟨[0], []⟩)], ndim := 1 }) ∧
    (([0] : List Nat).length = 1 ∧ (1 : Nat) ≠ 2) ∧
    (arrayFromData exAB
        [(["a"], ⟨[0, 2], []⟩), (["b"], ⟨[3, 2], [1, 2, 3, 4, 5, 6]⟩)] = .ok aMix) ∧
    (arrayGetitem aMix (.slice 0 1) =
      .error (.valueError "not all arrays have same number of dimensions")) := by
  refine ⟨⟨by decide, by decide⟩, by decide, ⟨by decide, by decide⟩, by decide, by decide⟩

/-! ### C8: dot and Partition identity -/

theorem keyfun_eq_zipWith {V W X : Type} (dW : W) (F : V → W → X) :
    ∀ (la : List (BlockKey × V)) (lb : List (BlockKey × W)),
      la.map Prod.fst = lb.map Prod.fst →
      (la.map Prod.fst).Nodup →
      la.map (fun pa => (pa.1, F pa.2 ((lb.lookup pa.1).getD dW))) =
        List.zipWith (fun pa pb => (pa.1, F pa.2 pb.2)) la lb := by
  intro la
  induction la with
  | nil =>
      intro lb hk _
      cases lb with
      | nil => rfl
      | cons pb0 lb' => simp at hk
  | cons pa0 la' ih =>
      intro lb hk hnd
      cases lb with
      | nil => simp at hk
      | cons pb0 lb' =>
          simp only [List.map_cons, List.cons.injEq] at hk
          obtain ⟨hk0, hk'⟩ := hk
          simp only [List.map_cons, List.nodup_cons] at hnd
          obtain ⟨hni, hnd'⟩ := hnd
          have hhead : (pb0 :: lb').lookup pa0.1 = some pb0.2 := by
            simp [List.lookup, hk0]
          have htail : la'.map
              (fun pa => (pa.1, F pa.2 (((pb0 :: lb').lookup pa.1).getD dW))) =
              la'.map (fun pa => (pa.1, F pa.2 ((lb'.lookup pa.1).getD dW))) := by
            refine List.map_congr_left ?_
            intro pa hpa
            have hne : pa.1 ≠ pb0.1 := by
              intro hc
              apply hni
              rw [hk0, ← hc]
              exact List.mem_map_of_mem Prod.fst hpa
            have : (pa.1 == pb0.1) = false := beq_false_of_ne hne
            simp [List.lookup, this]
          simp only [List.map_cons, List.zipWith_cons_cons, hhead,
            Option.getD_some, htail, ih lb' hk' hnd']

/-- C8, counterexample: two `Array`s over value-identical Partitions
(identical degeneracy mappings and block lists, separate `Ensemble`
constructor calls) make `dot` raise the mismatch error instead of
returning the per-block products the claim promises for equal
Partitions — the check is object identity, not value equality. -/
theorem c8_counterexample :
    exA.degeneracy = exB.degeneracy ∧ exA.blocks = exB.blocks ∧
    dotPy (fun x _ => x) aW bW =
      .error (.valueError "a and b do not share the same ensemble") := by
  refine ⟨by decide, by decide, by decide⟩

/-- C8, amended: `dot` checks the operands' Partitions for identity
before any per-block work — when they are not the same object it fails
with the mismatch error for every operand data and every dot primitive,
touching no block data; when the operands share one Partition object
(and are well-formed containers over it whose per-block `np.dot` results
agree in dimensionality), it returns a new container over that Partition
holding the per-block `np.dot` products in Partition order. -/
theorem c8_dot_identity_check :
    (∀ (npDot : NpArray → NpArray → NpArray) (a b : PyArray),
      pyEnsembleEq a.ensemble b.ensemble = false →
      dotPy npDot a b = .error (.valueError "a and b do not share the same ensemble")) ∧
    (∀ (npDot : NpArray → NpArray → NpArray) (a b : PyArray),
      a.ensemble = b.ensemble →
      a.array.map Prod.fst = a.ensemble.degeneracy.map Prod.fst →
      b.array.map Prod.fst = b.ensemble.degeneracy.map Prod.fst →
      (a.ensemble.degeneracy.map Prod.fst).Nodup →
      ((List.zipWith (fun pa pb => (pa.1, npDot pa.2 pb.2)) a.array b.array).map
        (fun p => p.2.shape.length)).dedup.length = 1 →
      ∃ A : PyArray, dotPy npDot a b = .ok A ∧ A.ensemble = a.ensemble ∧
        A.array = List.zipWith (fun pa pb => (pa.1, npDot pa.2 pb.2))
          a.array b.array) := by
  constructor
  · intro npDot a b h
    simp [dotPy, h]
  · intro npDot a b heq hka hkb hnd hdim
    have hkb' : b.array.map Prod.fst = a.ensemble.degeneracy.map Prod.fst := by
      rw [heq]; exact hkb
    have hndA : (a.array.map Prod.fst).Nodup := by rw [hka]; exact hnd
    have hndB : (b.array.map Prod.fst).Nodup := by rw [hkb']; exact hnd
    have hpeq : pyEnsembleEq a.ensemble b.ensemble = true := by
      rw [heq, pyEnsembleEq]; exact beq_self_eq_true _
    have hpoint : ∀ (bd : BlockKey × Int), bd ∈ a.ensemble.degeneracy →
        (do
          let x ← dictGet a.array bd.1
          let y ← dictGet b.array bd.1
          Except.ok (bd.1, npDot x y)) =
        Except.ok (bd.1, npDot ((a.array.lookup bd.1).getD ⟨[], []⟩)
          ((b.array.lookup bd.1).getD ⟨[], []⟩)) := by
      intro bd hbd
      have hma : bd.1 ∈ a.array.map Prod.fst := by
        rw [hka]; exact List.mem_map_of_mem Prod.fst hbd
      have hmb : bd.1 ∈ b.array.map Prod.fst := by
        rw [hkb']; exact List.mem_map_of_mem Prod.fst hbd
      obtain ⟨pa, hpa, hpa1⟩ := List.mem_map.mp hma
      obtain ⟨pb, hpb, hpb1⟩ := List.mem_map.mp hmb
      have hlka : a.array.lookup bd.1 = some pa.2 := by
        rw [← hpa1]; exact lookup_eq_of_mem_of_nodup hndA hpa
      have hlkb : b.array.lookup bd.1 = some pb.2 := by
        rw [← hpb1]; exact lookup_eq_of_mem_of_nodup hndB hpb
      rw [hlka, hlkb, Option.getD_some, Option.getD_some,
        dictGet_eq_ok hlka, pybind_ok_reduce, dictGet_eq_ok hlkb,
        pybind_ok_reduce]
    have hloop := pyLoop_of_pointwise
      (g := fun (bd : BlockKey × Int) => (bd.1,
        npDot ((a.array.lookup bd.1).getD ⟨[], []⟩)
          ((b.array.lookup bd.1).getD ⟨[], []⟩))) hpoint
    have hzip : a.ensemble.degeneracy.map
        (fun bd => (bd.1, npDot ((a.array.lookup bd.1).getD ⟨[], []⟩)
          ((b.array.lookup bd.1).getD ⟨[], []⟩))) =
        List.zipWith (fun pa pb => (pa.1, npDot pa.2 pb.2)) a.array b.array := by
      rw [map_keyfun_eq hka
        (fun k => npDot ((a.array.lookup k).getD ⟨[], []⟩)
          ((b.array.lookup k).getD ⟨[], []⟩))]
      have hstep : a.array.map (fun pa => (pa.1,
          npDot ((a.array.lookup pa.1).getD ⟨[], []⟩)
            ((b.array.lookup pa.1).getD ⟨[], []⟩))) =
          a.array.map (fun pa => (pa.1,
            npDot pa.2 ((b.array.lookup pa.1).getD ⟨[], []⟩))) := by
        refine List.map_congr_left ?_
        intro pa hpa
        rw [lookup_eq_of_mem_of_nodup hndA hpa, Option.getD_some]
      rw [hstep]
      exact keyfun_eq_zipWith ⟨[], []⟩ (fun x y => npDot x y) a.array b.array
        (hka.trans hkb'.symm) hndA
    have hzipkeys : ((List.zipWith (fun pa pb => (pa.1, npDot pa.2 pb.2))
        a.array b.array).map Prod.fst).Nodup := by
      rw [← hzip]
      have : (a.ensemble.degeneracy.map
          (fun bd => (bd.1, npDot ((a.array.lookup bd.1).getD ⟨[], []⟩)
            ((b.array.lookup bd.1).getD ⟨[], []⟩)))).map Prod.fst =
          a.ensemble.degeneracy.map Prod.fst := by
        rw [List.map_map]; rfl
      rw [this]
      exact hnd
    have harr_point : ∀ (bd : BlockKey × Int), bd ∈ a.ensemble.degeneracy →
        (do
          let ar ← dictGet (List.zipWith (fun pa pb => (pa.1, npDot pa.2 pb.2))
            a.array b.array) bd.1
          Except.ok (bd.1, ar)) =
        Except.ok (bd.1, npDot ((a.array.lookup bd.1).getD ⟨[], []⟩)
          ((b.array.lookup bd.1).getD ⟨[], []⟩)) := by
      intro bd hbd
      have hmem : (bd.1, npDot ((a.array.lookup bd.1).getD ⟨[], []⟩)
          ((b.array.lookup bd.1).getD ⟨[], []⟩)) ∈
          List.zipWith (fun pa pb => (pa.1, npDot pa.2 pb.2)) a.array b.array := by
        rw [← hzip]
        exact List.mem_map_of_mem _ hbd
      have hlk := lookup_eq_of_mem_of_nodup hzipkeys hmem
      rw [dictGet_eq_ok hlk, pybind_ok_reduce]
    have harr := pyLoop_of_pointwise
      (g := fun (bd : BlockKey × Int) => (bd.1,
        npDot ((a.array.lookup bd.1).getD ⟨[], []⟩)
          ((b.array.lookup bd.1).getD ⟨[], []⟩))) harr_point
    obtain ⟨nd, hnd_eq⟩ := List.length_eq_one.mp hdim
    refine ⟨{ ensemble := a.ensemble
              array := List.zipWith (fun pa pb => (pa.1, npDot pa.2 pb.2))
                a.array b.array
              ndim := nd }, ?_, rfl, rfl⟩
    unfold dotPy
    rw [hpeq]
    simp only [if_true]
    rw [hloop, pybind_ok_reduce]
    unfold arrayFromData
    rw [hzip, harr, pybind_ok_reduce]
    simp only [arrayBuild]
    rw [hzip, odFromPairs_eq_self hzipkeys, hnd_eq]

/-- Witness for C8: the mismatch branch on value-identical but distinct
ensembles, and the product branch on two containers sharing the ensemble
object `exA`. -/
theorem c8_dot_identity_check_witness :
    dotPy (fun x _ => x) aW bW =
      .error (.valueError "a and b do not share the same ensemble") ∧
    (dotPy (fun x _ => x) aW aW2).isOk = true := by
  constructor
  · exact c8_dot_identity_check.1 (fun x _ => x) aW bW (by decide)
  · obtain ⟨A, hA, _⟩ := c8_dot_identity_check.2 (fun x _ => x) aW aW2
      rfl (by decide) (by decide) (by decide) (by decide)
    rw [hA]
    rfl

/-! ### C9: multiplication by another container -/

/-- C9, counterexample: multiplying an `Array` by another `Array` over
the same Partition object does not produce an elementwise product — the
`other[block]` lookup invokes `Array.__getitem__` with the block key as
a numpy index and raises `IndexError` as soon as the operand has a
nonempty block. -/
theorem c9_counterexample :
    arrayMul aW (.arrayContainer aW2) =
      .error (.indexError "only integers and slices are valid indices") := by
  decide

theorem getitem_key_loop_err (nd : Nat) (b : BlockKey) :
    ∀ oa : List (BlockKey × NpArray),
      (∀ q ∈ oa, q.2.shape ≠ []) →
      (∃ q ∈ oa, 0 < q.2.shape.headD 0) →
      pyLoop (fun p => do
        let n ← npLen p.2
        if 0 < n then do
          let r ← npIndex p.2 (.key b)
          Except.ok (p.1, r)
        else
          Except.ok (p.1, npEmptyInt (nd * 0))) oa =
        .error (.indexError "only integers and slices are valid indices") := by
  intro oa
  induction oa with
  | nil =>
      intro _ hex
      obtain ⟨q, hq, _⟩ := hex
      cases hq
  | cons q0 rest ih =>
      intro hsh hex
      cases hs : q0.2.shape with
      | nil => exact absurd hs (hsh q0 (List.mem_cons_self q0 rest))
      | cons n tail =>
          have hlen : npLen q0.2 = .ok n := by simp [npLen, hs]
          by_cases hn : 0 < n
          · refine pyLoop_cons_err ?_
            rw [hlen, pybind_ok_reduce, if_pos hn]
            have hidx : npIndex q0.2 (.key b) =
                .error (.indexError "only integers and slices are valid indices") := by
              unfold npIndex
              rw [hs]
            rw [hidx]
            rfl
          · have hbody : (do
                let n' ← npLen q0.2
                if 0 < n' then do
                  let r ← npIndex q0.2 (.key b)
                  Except.ok (q0.1, r)
                else
                  Except.ok (q0.1, npEmptyInt (nd * 0))) =
                Except.ok (q0.1, npEmptyInt (nd * 0)) := by
              rw [hlen, pybind_ok_reduce, if_neg hn]
            have hex' : ∃ q ∈ rest, 0 < q.2.shape.headD 0 := by
              obtain ⟨q, hq, hqpos⟩ := hex
              rcases List.mem_cons.mp hq with rfl | htail
              · rw [hs] at hqpos
                simp at hqpos
                omega
              · exact ⟨q, htail, hqpos⟩
            rw [pyLoop_cons, hbody, exbind_ok_reduce,
              ih (fun q hq => hsh q (List.mem_cons_of_mem q0 hq)) hex']
            rfl

/-- C9, amended: the restricted variant `EnsembleArray.__mul__` rejects
every non-scalar operand (another scalar container or array container)
with the `TypeError` saying only multiplications with scalars are
allowed; the general variant `Array.__mul__` reaches its per-block
elementwise path `arr * other[block]`, but with another `Array` as the
operand the `other[block]` lookup misapplies `Array.__getitem__` (the
block key becomes a numpy index), so whenever the operand container has
any nonempty block (and no 0-d block before it) the multiplication
raises `IndexError` instead of producing an elementwise product — the
two variants remain distinct operations, but array-by-array elementwise
multiply is not actually delivered by either. -/
theorem c9_mul_variants :
    (∀ (a : PyArray) (s : PyScalar),
      ensArrayMul a (.scalarContainer s) =
        .error (.typeError "only multiplications with scalars are allowed")) ∧
    (∀ (a o : PyArray),
      ensArrayMul a (.arrayContainer o) =
        .error (.typeError "only multiplications with scalars are allowed")) ∧
    (∀ (a o : PyArray), a.array ≠ [] →
      (∀ q ∈ o.array, q.2.shape ≠ []) →
      (∃ q ∈ o.array, 0 < q.2.shape.headD 0) →
      arrayMul a (.arrayContainer o) =
        .error (.indexError "only integers and slices are valid indices")) := by
  refine ⟨fun a s => rfl, fun a o => rfl, ?_⟩
  intro a o hne hsh hex
  cases ha : a.array with
  | nil => exact absurd ha hne
  | cons p0 rest =>
      have hget : arrayGetitem o (.key p0.1) =
          .error (.indexError "only integers and slices are valid indices") := by
        unfold arrayGetitem
        rw [getitem_key_loop_err o.ndim p0.1 o.array hsh hex]
        rfl
      have hm : arrayMul a (.arrayContainer o) =
          Bind.bind (pyLoop (fun p => do
            let ob ← arrayGetitem o (.key p.1)
            let r ← npMulArrayObject p.2 ob
            Except.ok (p.1, r)) a.array)
            (fun pairs => arrayFromData a.ensemble pairs) := rfl
      have hl : pyLoop (fun p => do
            let ob ← arrayGetitem o (.key p.1)
            let r ← npMulArrayObject p.2 ob
            Except.ok (p.1, r)) (p0 :: rest) =
          .error (.indexError "only integers and slices are valid indices") := by
        refine pyLoop_cons_err ?_
        show (do
            let ob ← arrayGetitem o (.key p0.1)
            let r ← npMulArrayObject p0.2 ob
            Except.ok (p0.1, r)) =
          (.error (.indexError "only integers and slices are valid indices") :
            Except PyErr (BlockKey × NpArray))
        rw [hget]
        rfl
      rw [hm, ha, hl]
      rfl

/-- Witness for C9: the rejection on the restricted variant and the
`IndexError` on `Array` times `Array`, at the concrete one-block
containers. -/
theorem c9_mul_variants_witness :
    ensArrayMul aW (.scalarContainer sW) =
      .error (.typeError "only multiplications with scalars are allowed") ∧
    arrayMul aW (.arrayContainer aW2) =
      .error (.indexError "only integers and slices are valid indices") :=
  ⟨c9_mul_variants.1 aW sW,
   c9_mul_variants.2.2 aW aW2 (by decide) (by decide) (by decide)⟩

end Pydiag
